import Mathlib

/-!
Verification of the 2701 cipher-vault server against its specification.

This file gives a shallow embedding, in Lean 4, of the core server logic of
the repository: the data model (src/shared/types/cipher.ts), winner
determination and the scheduler tick (src/server/index.ts), guess validation
(ValidationService.validateGuess), the rally/vote and guess-submission
endpoints (src/server/index.ts), the fallback cipher pool
(src/server/core/cipher-generation.ts and the fallback-ciphers module), the
AI-generation duplicate-guard retry loop, and the KV-store cipher
serialization (KVStoreService.saveCipher/getCipher).

Modelling conventions:
* JS numbers holding millisecond timestamps and hour time-limits are
  integer-valued in this program; they are modelled as `Int` (or `Nat` where
  the program guarantees non-negativity, e.g. rally counts).
* Redis hashes and keys are modelled as Lean structures and functions
  `String → Option _`; a Redis key with a TTL is a pair of a value and its
  absolute expiry time, and a read at time `now` sees the value only while
  `now` is before the expiry.
* Async endpoint handlers run each request to completion in isolation, so an
  endpoint is a pure function from a pre-state (plus request data and the
  current time) to a result and a post-state.
* Sources of randomness (`Math.random()`, uuid generation) are passed in as
  explicit input streams.
-/

namespace TwentySevenOhOne

/-- Difficulty union type from src/shared/types/cipher.ts
(`'Easy' | 'Medium' | 'Hard'`). -/
inductive Difficulty
  | Easy
  | Medium
  | Hard
deriving DecidableEq, Repr

/-- Format union type from src/shared/types/cipher.ts
(`'text' | 'image' | 'audio'`). -/
inductive CipherFormat
  | text
  | image
  | audio
deriving DecidableEq, Repr

/-- Thematic category union type (`'privacy' | 'auditing' | 'patents'`). -/
inductive Category
  | privacy
  | auditing
  | patents
deriving DecidableEq, Repr

/-- BreadcrumbMetadata from src/shared/types/cipher.ts.  The JS number
`connection_weight` lies in [0.1, 1.0]; every value this program constructs
is an exact multiple of 0.1, so it is modelled by its number of tenths
(`connection_weight_tenths = 8` models `0.8`).  `unlock_threshold` is an
integer (always 50 in the source). -/
structure BreadcrumbMetadata where
  narrative_thread_id : String
  connection_weight_tenths : Nat
  thematic_category : Category
  cipher_source_event : String
  unlock_threshold : Nat
deriving DecidableEq, Repr

/-- Cipher record from src/shared/types/cipher.ts.  `timeLimit` is in hours,
`createdAt`/`expiresAt` are millisecond timestamps. -/
structure Cipher where
  id : String
  title : String
  hint : String
  solution : String
  difficulty : Difficulty
  format : CipherFormat
  content : String
  contentUrl : Option String
  timeLimit : Int
  createdAt : Int
  expiresAt : Int
  isActive : Bool
  sourceEvent : Option String
  breadcrumbData : Option BreadcrumbMetadata
deriving DecidableEq, Repr

/-- Guess record from src/shared/types/cipher.ts.  `rallyCount` is a
non-negative integer (initialised to 0, only ever incremented by 1), so it is
modelled as `Nat`.  The optional `isWinner` flag defaults to false. -/
structure Guess where
  id : String
  cipherId : String
  userId : String
  username : String
  content : String
  rallyCount : Nat
  createdAt : Int
  isWinner : Bool
deriving DecidableEq, Repr

/-- Rally record from src/shared/types/cipher.ts: one (voter, guess)
endorsement. -/
structure Rally where
  id : String
  guessId : String
  userId : String
  createdAt : Int
deriving DecidableEq, Repr

/-! ## Winner determination

`handleCipherExpiration` (src/server/index.ts, lines 41-58) sorts the
guesses with the comparator

  `(a, b) => b.rallyCount !== a.rallyCount ? b.rallyCount - a.rallyCount
                                           : a.createdAt - b.createdAt`

(JS `Array.prototype.sort` is stable), takes the head, and nulls it out when
its rallyCount is 0.  The head of a stable sort under this comparator is the
first list element that is maximal in rallyCount and, among those, minimal in
createdAt; `selectTop` computes exactly that element by a left fold that
replaces the current best only when a strictly better candidate appears. -/

/-- candidate `c` sorts strictly before `best` under the expiration
comparator: more rallies, or equally many and strictly earlier. -/
def betterGuess (best c : Guess) : Prop :=
  best.rallyCount < c.rallyCount ∨
    (c.rallyCount = best.rallyCount ∧ c.createdAt < best.createdAt)

instance (best c : Guess) : Decidable (betterGuess best c) := by
  unfold betterGuess
  infer_instance

/-- head of the comparator-sorted guess list (`sortedGuesses[0]`), `none` for
an empty list. -/
def selectTop : List Guess → Option Guess
  | [] => none
  | g :: rest => some (rest.foldl (fun best c => if betterGuess best c then c else best) g)

/-- Winner determination from `handleCipherExpiration`: the comparator-sorted
head, discarded when it has zero rallies ("no votes means no winner"). -/
def determineWinner (guesses : List Guess) : Option Guess :=
  match selectTop guesses with
  | none => none
  | some w => if w.rallyCount = 0 then none else some w

/-- the fold of `selectTop` returns an element of the candidate pool. -/
theorem selectTop_fold_mem (g : Guess) (l : List Guess) :
    l.foldl (fun best c => if betterGuess best c then c else best) g ∈ g :: l := by
  induction l generalizing g with
  | nil => simp
  | cons c rest ih =>
    simp only [List.foldl_cons]
    by_cases h : betterGuess g c
    · rw [if_pos h]
      rcases List.mem_cons.mp (ih c) with h1 | h1
      · rw [h1]
        simp
      · simp [h1]
    · rw [if_neg h]
      rcases List.mem_cons.mp (ih g) with h1 | h1
      · rw [h1]
        simp
      · simp [h1]

/-- dominance order established by the fold: `best` has at least as many
rallies as `x`, and among equal rally counts is at least as early. -/
def dominates (best x : Guess) : Prop :=
  x.rallyCount < best.rallyCount ∨
    (x.rallyCount = best.rallyCount ∧ best.createdAt ≤ x.createdAt)

theorem dominates_refl (g : Guess) : dominates g g :=
  Or.inr ⟨rfl, le_refl _⟩

theorem dominates_trans {a b c : Guess} (h1 : dominates a b) (h2 : dominates b c) :
    dominates a c := by
  unfold dominates at *
  omega

theorem dominates_step (g c : Guess) :
    dominates (if betterGuess g c then c else g) g ∧
      dominates (if betterGuess g c then c else g) c := by
  by_cases h : betterGuess g c
  · rw [if_pos h]
    unfold betterGuess at h
    unfold dominates
    constructor <;> omega
  · rw [if_neg h]
    unfold betterGuess at h
    unfold dominates
    constructor <;> omega

/-- the fold result dominates the seed and every list element. -/
theorem selectTop_fold_dominates (g : Guess) (l : List Guess) :
    ∀ x ∈ g :: l,
      dominates (l.foldl (fun best c => if betterGuess best c then c else best) g) x := by
  induction l generalizing g with
  | nil =>
    intro x hx
    simp at hx
    subst hx
    exact dominates_refl _
  | cons c rest ih =>
    intro x hx
    simp only [List.foldl_cons]
    have hstep := dominates_step g c
    have hseed := ih (if betterGuess g c then c else g)
      (if betterGuess g c then c else g) (List.mem_cons_self _ _)
    rcases List.mem_cons.mp hx with h1 | h1
    · exact dominates_trans hseed (h1 ▸ hstep.1)
    · rcases List.mem_cons.mp h1 with h2 | h2
      · exact dominates_trans hseed (h2 ▸ hstep.2)
      · exact ih (if betterGuess g c then c else g) x (List.mem_cons.mpr (Or.inr h2))

theorem selectTop_mem {gs : List Guess} {w : Guess} (h : selectTop gs = some w) :
    w ∈ gs := by
  cases gs with
  | nil => simp [selectTop] at h
  | cons g rest =>
    simp only [selectTop, Option.some.injEq] at h
    subst h
    exact selectTop_fold_mem g rest

theorem selectTop_dominates {gs : List Guess} {w : Guess} (h : selectTop gs = some w) :
    ∀ x ∈ gs, dominates w x := by
  cases gs with
  | nil => simp [selectTop] at h
  | cons g rest =>
    simp only [selectTop, Option.some.injEq] at h
    subst h
    exact fun x hx => selectTop_fold_dominates g rest x hx

theorem selectTop_eq_none {gs : List Guess} : selectTop gs = none ↔ gs = [] := by
  cases gs <;> simp [selectTop]

/-- C2: winner determination at puzzle expiry returns the guess with the
highest voteCount among all guesses for the puzzle, breaking ties by
earliest createdAt, and returns no winner (null) whenever the top guess has
voteCount = 0, including when it is the only guess (equivalently: exactly
when every guess, if any, has voteCount 0). -/
theorem winner_determination_correct (gs : List Guess) :
    (determineWinner gs = none ↔ ∀ g ∈ gs, g.rallyCount = 0) ∧
      (∀ w, determineWinner gs = some w →
        w ∈ gs ∧ 0 < w.rallyCount ∧
          ∀ g ∈ gs, g.rallyCount ≤ w.rallyCount ∧
            (g.rallyCount = w.rallyCount → w.createdAt ≤ g.createdAt)) := by
  match htop : selectTop gs with
  | none =>
    have hnil : gs = [] := selectTop_eq_none.mp htop
    subst hnil
    constructor
    · simp [determineWinner, selectTop]
    · intro w hw
      simp [determineWinner, selectTop] at hw
  | some t =>
    have hmem : t ∈ gs := selectTop_mem htop
    have hdom : ∀ x ∈ gs, dominates t x := selectTop_dominates htop
    have hdw : determineWinner gs = if t.rallyCount = 0 then none else some t := by
      unfold determineWinner
      rw [htop]
    by_cases hz : t.rallyCount = 0
    · rw [hdw, if_pos hz]
      constructor
      · constructor
        · intro _ g hg
          rcases hdom g hg with h1 | ⟨h2, _⟩
          · omega
          · omega
        · intro _
          rfl
      · intro w hw
        simp at hw
    · rw [hdw, if_neg hz]
      constructor
      · constructor
        · intro h
          simp at h
        · intro hall
          exact absurd (hall t hmem) hz
      · intro w hw
        cases hw
        refine ⟨hmem, by omega, ?_⟩
        intro g hg
        rcases hdom g hg with h1 | ⟨h2, h3⟩
        · exact ⟨le_of_lt h1, fun he => by omega⟩
        · exact ⟨le_of_eq h2, fun _ => h3⟩

/-- concrete guesses from the testable-properties section of the spec:
A(votes=3, createdAt=1), B(votes=3, createdAt=2), C(votes=5, createdAt=3),
and a zero-vote guess Z. -/
def guessExA : Guess :=
  { id := "A", cipherId := "c", userId := "u1", username := "u1", content := "alpha",
    rallyCount := 3, createdAt := 1, isWinner := false }

def guessExB : Guess :=
  { id := "B", cipherId := "c", userId := "u2", username := "u2", content := "beta",
    rallyCount := 3, createdAt := 2, isWinner := false }

def guessExC : Guess :=
  { id := "C", cipherId := "c", userId := "u3", username := "u3", content := "gamma",
    rallyCount := 5, createdAt := 3, isWinner := false }

def guessExZ : Guess :=
  { id := "Z", cipherId := "c", userId := "u4", username := "u4", content := "zeta",
    rallyCount := 0, createdAt := 1, isWinner := false }

/-- C2 witness: instantiating the winner-determination theorem on the spec's
examples: C wins over the tied A/B, A wins the tie against B, and a single
zero-vote guess yields no winner. -/
theorem winner_determination_correct_witness :
    (determineWinner [guessExA, guessExB, guessExC] = some guessExC ∧
        guessExC ∈ [guessExA, guessExB, guessExC] ∧ 0 < guessExC.rallyCount ∧
        guessExA.rallyCount ≤ guessExC.rallyCount) ∧
      (determineWinner [guessExA, guessExB] = some guessExA ∧
        guessExA.rallyCount = guessExB.rallyCount ∧ guessExA.createdAt ≤ guessExB.createdAt) ∧
      determineWinner [guessExZ] = none := by
  have hC : determineWinner [guessExA, guessExB, guessExC] = some guessExC := by decide
  have hA : determineWinner [guessExA, guessExB] = some guessExA := by decide
  have h1 := (winner_determination_correct [guessExA, guessExB, guessExC]).2 guessExC hC
  have h2 := (winner_determination_correct [guessExA, guessExB]).2 guessExA hA
  have h3 := (winner_determination_correct [guessExZ]).1.mpr (by decide)
  refine ⟨⟨hC, h1.1, h1.2.1, (h1.2.2 guessExA (by simp)).1⟩, ⟨hA, by decide, ?_⟩, h3⟩
  exact (h2.2.2 guessExB (by simp)).2 (by decide)

/-! ## Guess validation

`ValidationService.validateGuess` (src/shared/types/user.ts part, lines
170-194) checks, in order: non-emptiness of the raw string, length at most
100, the full-match pattern `^[a-zA-Z0-9\s]+$`, and absence of a whitespace
run `\s{2,}`; only then does it sanitize.  Strings are modelled as lists of
characters. -/

/-- the `a-zA-Z0-9` character class of the guess pattern, by code point. -/
def isGuessAlnum (c : Char) : Bool :=
  decide ((97 ≤ c.toNat ∧ c.toNat ≤ 122) ∨ (65 ≤ c.toNat ∧ c.toNat ≤ 90) ∨
    (48 ≤ c.toNat ∧ c.toNat ≤ 57))

/-- the character class of the JS regex `\s`: tab through carriage return,
space, NBSP, Ogham space mark, the U+2000..U+200A range, line/paragraph
separator, narrow NBSP, medium mathematical space, ideographic space and
BOM. -/
def isJsWhitespace (c : Char) : Bool :=
  decide (c.toNat = 9 ∨ c.toNat = 10 ∨ c.toNat = 11 ∨ c.toNat = 12 ∨ c.toNat = 13 ∨
    c.toNat = 32 ∨ c.toNat = 160 ∨ c.toNat = 5760 ∨ (8192 ≤ c.toNat ∧ c.toNat ≤ 8202) ∨
    c.toNat = 8232 ∨ c.toNat = 8233 ∨ c.toNat = 8239 ∨ c.toNat = 8287 ∨
    c.toNat = 12288 ∨ c.toNat = 65279)

/-- test of the JS regex `\s{2,}`: some two consecutive whitespace
characters. -/
def hasWsRun : List Char → Bool
  | [] => false
  | [_] => false
  | a :: b :: rest => (isJsWhitespace a && isJsWhitespace b) || hasWsRun (b :: rest)

theorem length_dropWhile_le (p : Char → Bool) (l : List Char) :
    (l.dropWhile p).length ≤ l.length := by
  induction l with
  | nil => simp
  | cons c rest ih =>
    by_cases h : p c
    · simp only [List.dropWhile_cons, h, if_pos]
      exact le_trans ih (Nat.le_succ _)
    · simp [List.dropWhile_cons, h]

/-- JS `String.prototype.trim`: strip leading and trailing whitespace (the
trim set coincides with the `\s` class). -/
def jsTrim (l : List Char) : List Char :=
  ((l.dropWhile isJsWhitespace).reverse.dropWhile isJsWhitespace).reverse

/-- the `replace(/\s+/g, ' ')` step of `sanitizeInput`, one character at a
time: a whitespace character opens (or continues) a run, and each maximal
run contributes a single space. -/
def wsCollapseAux (prevWs : Bool) : List Char → List Char
  | [] => []
  | c :: rest =>
    if isJsWhitespace c then
      if prevWs then wsCollapseAux true rest
      else Char.ofNat 32 :: wsCollapseAux true rest
    else c :: wsCollapseAux false rest

/-- each maximal whitespace run becomes one space. -/
def wsCollapse (l : List Char) : List Char :=
  wsCollapseAux false l

/-- sanitization applied by `validateGuess` on the accept path.  On a string
that already matched `^[a-zA-Z0-9\s]+$` the four HTML/XSS `replace` calls of
`sanitizeInput` are the identity (the string contains none of the characters
`<`, `>`, `:`, `=` they look for), so `sanitizeInput` reduces to trimming
and collapsing whitespace runs. -/
def sanitizeValidated (l : List Char) : List Char :=
  wsCollapse (jsTrim l)

/-- result shape of `validateGuess`: either an error message or the
sanitized content. -/
inductive GuessValidation
  | invalid (error : String)
  | valid (sanitized : List Char)
deriving DecidableEq, Repr

/-- `ValidationService.validateGuess`, check for check.  The pattern test
`^[a-zA-Z0-9\s]+$` is the conjunction of "every character is in the class"
and non-emptiness; the latter already holds on this branch. -/
def validateGuess (content : List Char) : GuessValidation :=
  if content = [] then .invalid "Guess cannot be empty"
  else if 100 < content.length then .invalid "Guess must be 100 characters or less"
  else if ¬ (content.all fun c => isGuessAlnum c || isJsWhitespace c) then
    .invalid "Only letters, numbers, and spaces allowed"
  else if hasWsRun content then .invalid "No consecutive spaces allowed"
  else .valid (sanitizeValidated content)

/-- convenience view: does `validateGuess` accept? -/
def validateGuessOk (content : List Char) : Bool :=
  match validateGuess content with
  | .invalid _ => false
  | .valid _ => true

/-! ## Server state and the rally / submit / tick operations

The mutable Redis state touched by the modelled endpoints of
src/server/index.ts and src/server/core/kvstore.ts (unnamed part):
cipher records, the `active_cipher_id` index, guess records, the per-cipher
`cipher_guess` index, rally records together with the per-user `user_rally`
index (modelled as one list scanned by user), and the two TTL'd rate-limit
counters.  Rally and guess record ids are generated from timestamp plus
randomness in the source; the model takes them as request inputs. -/

/-- a Redis counter key with a TTL: value and absolute expiry (ms). -/
structure RateEntry where
  count : Nat
  expiresAt : Int
deriving DecidableEq, Repr

/-- KV state shared by the endpoints. -/
structure ServerState where
  ciphers : String → Option Cipher
  activeIndex : List String
  guesses : String → Option Guess
  cipherGuessIds : String → List String
  rallies : List Rally
  rallyRate : String → Option RateEntry
  guessRate : String → Option RateEntry

/-- `redis.get` on a TTL'd counter: visible only before its expiry. -/
def rateGet (e : Option RateEntry) (now : Int) : Option Nat :=
  match e with
  | none => none
  | some r => if now < r.expiresAt then some r.count else none

/-- `redis.incrBy(key, 1)` followed by `redis.expire(key, 60)`: an expired
or absent key restarts from 0. -/
def rateIncrExpire (e : Option RateEntry) (now : Int) : RateEntry :=
  match e with
  | none => ⟨1, now + 60000⟩
  | some r => if now < r.expiresAt then ⟨r.count + 1, now + 60000⟩ else ⟨1, now + 60000⟩

/-- `KVStoreService.hasUserRallied`: scan the user's rally records for one
naming this guess. -/
def hasUserRallied (s : ServerState) (userId guessId : String) : Bool :=
  s.rallies.any fun r => r.userId == userId && r.guessId == guessId

/-- current rallyCount of a guess record (0 when the record is absent). -/
def rallyCountOf (s : ServerState) (guessId : String) : Nat :=
  match s.guesses guessId with
  | some g => g.rallyCount
  | none => 0

/-- outcome of POST /api/rally-guess (ignoring transport-level failures). -/
inductive RallyResult
  | accepted (newRallyCount : Nat)
  | rateLimited
  | alreadyRallied
  | guessNotFound
deriving DecidableEq, Repr

/-- rally endpoint after the rate-limit gate: duplicate-vote check, guess
lookup (`!guessData || !guessData.cipherId` means not found), then
`addRally`, `incrementRallyCount` and the rate-counter update. -/
def rallyGuessCore (s : ServerState) (now : Int) (username guessId rallyId : String) :
    RallyResult × ServerState :=
  if hasUserRallied s username guessId then (.alreadyRallied, s)
  else
    match s.guesses guessId with
    | none => (.guessNotFound, s)
    | some g =>
      if g.cipherId = "" then (.guessNotFound, s)
      else
        let rally : Rally := ⟨rallyId, guessId, username, now⟩
        let g2 : Guess := { g with rallyCount := g.rallyCount + 1 }
        let s2 : ServerState :=
          { s with
            rallies := s.rallies ++ [rally]
            guesses := fun i => if i = guessId then some g2 else s.guesses i }
        let s3 : ServerState :=
          { s2 with
            rallyRate := fun u =>
              if u = username then some (rateIncrExpire (s2.rallyRate u) now)
              else s2.rallyRate u }
        (.accepted (g.rallyCount + 1), s3)

/-- POST /api/rally-guess (src/server/index.ts, lines 710-816).  Note that
the handler never consults the cipher record: no active-state or lockdown
check guards a rally. -/
def rallyGuess (s : ServerState) (now : Int) (username guessId rallyId : String) :
    RallyResult × ServerState :=
  match rateGet (s.rallyRate username) now with
  | some c =>
    if 10 ≤ c then (.rateLimited, s)
    else rallyGuessCore s now username guessId rallyId
  | none => rallyGuessCore s now username guessId rallyId

/-- outcome of POST /api/submit-guess. -/
inductive SubmitResult
  | accepted (g : Guess)
  | missingParams
  | validationError (error : String)
  | rateLimited
  | cipherNotFound
  | cipherNotActive
deriving DecidableEq, Repr

/-- submit endpoint after validation and the rate-limit gate: cipher lookup,
the `!cipher.isActive || cipher.expiresAt <= Date.now()` rejection, then
`storeGuess` (record plus per-cipher index) and the rate-counter update.
The stored content is `validation.sanitized || content.trim()`. -/
def submitGuessCore (s : ServerState) (now : Int)
    (username cipherId content guessId : String) (san : List Char) :
    SubmitResult × ServerState :=
  match s.ciphers cipherId with
  | none => (.cipherNotFound, s)
  | some c =>
    if ¬ c.isActive ∨ c.expiresAt ≤ now then (.cipherNotActive, s)
    else
      let stored : List Char := if san = [] then jsTrim content.data else san
      let g : Guess :=
        { id := guessId, cipherId := cipherId, userId := username, username := username,
          content := String.mk stored, rallyCount := 0, createdAt := now, isWinner := false }
      let s2 : ServerState :=
        { s with
          guesses := fun i => if i = guessId then some g else s.guesses i
          cipherGuessIds := fun cid =>
            if cid = cipherId then s.cipherGuessIds cid ++ [guessId]
            else s.cipherGuessIds cid }
      let s3 : ServerState :=
        { s2 with
          guessRate := fun u =>
            if u = username then some (rateIncrExpire (s2.guessRate u) now)
            else s2.guessRate u }
      (.accepted g, s3)

/-- POST /api/submit-guess (src/server/index.ts, lines 819-921): missing
parameters, `validateGuess`, the rate-limit gate (5 per window), then
`submitGuessCore`. -/
def submitGuess (s : ServerState) (now : Int) (username cipherId content guessId : String) :
    SubmitResult × ServerState :=
  if cipherId = "" ∨ content = "" then (.missingParams, s)
  else
    match validateGuess content.data with
    | .invalid e => (.validationError e, s)
    | .valid san =>
      match rateGet (s.guessRate username) now with
      | some c =>
        if 5 ≤ c then (.rateLimited, s)
        else submitGuessCore s now username cipherId content guessId san
      | none => submitGuessCore s now username cipherId content guessId san

/-! ## Scheduler tick

POST /internal/scheduler/expireCiphers (src/server/index.ts, lines 505-548)
iterates over `getActiveCiphers()`, emits a lockdown realtime event for every
cipher with `0 < expiresAt - now <= 10000`, and runs
`handleCipherExpiration` for every cipher with `expiresAt <= now`.  JS array
sorts are stable, so the two sorts are modelled by stable insertion
sorts. -/

/-- realtime message kinds sent on the per-cipher channel (`rally_update`
is sent by the rally endpoint and is not re-modelled there; the tick sends
the other two). -/
inductive RtEvent
  | rallyUpdate (guessId : String) (newRallyCount : Nat)
  | cipherLockdown (cipherId : String) (timeRemaining : Int)
  | cipherExpired (cipherId : String) (winner : Option Guess)
deriving DecidableEq, Repr

/-- stable ascending insertion by createdAt (`(a, b) => a.createdAt -
b.createdAt`). -/
def insertByCreatedAt (c : Cipher) : List Cipher → List Cipher
  | [] => [c]
  | x :: xs => if c.createdAt < x.createdAt then c :: x :: xs else x :: insertByCreatedAt c xs

def sortByCreatedAt (l : List Cipher) : List Cipher :=
  l.foldr insertByCreatedAt []

/-- stable descending insertion by rallyCount (`(a, b) => b.rallyCount -
a.rallyCount`), used by `getCipherGuesses`. -/
def insertByRallyDesc (g : Guess) : List Guess → List Guess
  | [] => [g]
  | x :: xs => if x.rallyCount < g.rallyCount then g :: x :: xs else x :: insertByRallyDesc g xs

def sortByRallyDesc (l : List Guess) : List Guess :=
  l.foldr insertByRallyDesc []

/-- `KVStoreService.getActiveCiphers`: walk the `active_cipher_id` index,
keep records that exist, are active and expire in the future, sorted by
createdAt ascending. -/
def getActiveCiphers (s : ServerState) (now : Int) : List Cipher :=
  sortByCreatedAt
    ((s.activeIndex.filterMap s.ciphers).filter fun c => c.isActive && decide (now < c.expiresAt))

/-- `KVStoreService.getCipherGuesses`: walk the per-cipher guess index and
sort by rallyCount descending. -/
def getCipherGuesses (s : ServerState) (cipherId : String) : List Guess :=
  sortByRallyDesc ((s.cipherGuessIds cipherId).filterMap s.guesses)

/-- `KVStoreService.expireCipher`: `hSet(cipher:id, { isActive: 'false' })`
(a no-op on an absent record, which the source would turn into a partial
hash that `getCipher` then rejects for lack of an id field). -/
def expireCipher (s : ServerState) (cipherId : String) : ServerState :=
  { s with
    ciphers := fun i =>
      if i = cipherId then (s.ciphers i).map fun c => { c with isActive := false }
      else s.ciphers i }

/-- `handleCipherExpiration` (src/server/index.ts, lines 34-120): winner
determination over the cipher's guesses, `expireCipher`, the expiry
realtime event, and `isWinner := true` on the winning guess record.  The
winner's user-statistics update, breadcrumb generation and Reddit comment
touch only state outside this model and are omitted. -/
def handleCipherExpiration (s : ServerState) (c : Cipher) :
    List RtEvent × ServerState :=
  let guesses := getCipherGuesses s c.id
  let winner := determineWinner guesses
  let s1 := expireCipher s c.id
  let s2 : ServerState :=
    match winner with
    | some w =>
      { s1 with
        guesses := fun i =>
          if i = w.id then (s1.guesses i).map fun g => { g with isWinner := true }
          else s1.guesses i }
    | none => s1
  ([.cipherExpired c.id winner], s2)

/-- loop body of the expiration tick for one active cipher: lockdown event
when `0 < expiresAt - now <= 10000`, expiration handling when
`expiresAt <= now`.  The accumulator carries emitted events, the state and
the locked/expired counters. -/
def tickStep (now : Int) (acc : List RtEvent × ServerState × Nat × Nat) (c : Cipher) :
    List RtEvent × ServerState × Nat × Nat :=
  let evs := acc.1
  let s := acc.2.1
  let locked := acc.2.2.1
  let expiredCount := acc.2.2.2
  let tr := c.expiresAt - now
  let inWindow : Bool := decide (tr ≤ 10000) && decide (0 < tr)
  let evs1 := if inWindow then evs ++ [.cipherLockdown c.id tr] else evs
  let locked1 := if inWindow then locked + 1 else locked
  if c.expiresAt ≤ now then
    let r := handleCipherExpiration s c
    (evs1 ++ r.1, r.2, locked1, expiredCount + 1)
  else (evs1, s, locked1, expiredCount)

/-- POST /internal/scheduler/expireCiphers: fold the tick body over the
active ciphers. -/
def expireCiphersTick (s : ServerState) (now : Int) :
    List RtEvent × ServerState × Nat × Nat :=
  (getActiveCiphers s now).foldl (tickStep now) ([], s, 0, 0)

/-- state-mutating operations of the modelled server surface. -/
inductive Op
  | rally (now : Int) (username guessId rallyId : String)
  | submit (now : Int) (username cipherId content guessId : String)
  | tick (now : Int)
  | runExpiration (cipherId : String)

/-- state transition of one operation. -/
def applyOp (s : ServerState) : Op → ServerState
  | .rally now u g r => (rallyGuess s now u g r).2
  | .submit now u cid content gid => (submitGuess s now u cid content gid).2
  | .tick now => (expireCiphersTick s now).2.1
  | .runExpiration cid =>
    match s.ciphers cid with
    | some c => (handleCipherExpiration s c).2
    | none => s

/-- run a sequence of operations. -/
def runOps (s : ServerState) (ops : List Op) : ServerState :=
  ops.foldl applyOp s

/-! ## C1: vote atomicity and the vote-count sum -/

/-- one vote request: the caller, target guess and fresh rally id, at a
point in time. -/
structure RallyReq where
  now : Int
  username : String
  guessId : String
  rallyId : String

/-- run a sequence of vote requests through the rally endpoint. -/
def runRallies (s : ServerState) (votes : List RallyReq) : ServerState :=
  votes.foldl (fun s v => (rallyGuess s v.now v.username v.guessId v.rallyId).2) s

/-- a ledger with no recorded votes and every vote counter at zero. -/
def CleanLedger (s : ServerState) : Prop :=
  s.rallies = [] ∧ ∀ gid, rallyCountOf s gid = 0

/-- no two rally records name the same (voter, guess) pair. -/
def DistinctPairs (l : List Rally) : Prop :=
  l.Pairwise fun r1 r2 => ¬(r1.userId = r2.userId ∧ r1.guessId = r2.guessId)

/-- ledger invariant tying the counters to the rally records: pairs are
distinct and each guess's counter equals its number of rally records. -/
def LedgerInv (s : ServerState) : Prop :=
  DistinctPairs s.rallies ∧
    ∀ gid, rallyCountOf s gid = (s.rallies.filter fun r => r.guessId == gid).length

theorem hasUserRallied_false_iff {s : ServerState} {u gid : String} :
    hasUserRallied s u gid = false ↔
      ∀ r ∈ s.rallies, ¬(r.userId = u ∧ r.guessId = gid) := by
  unfold hasUserRallied
  rw [← Bool.not_eq_true, List.any_eq_true]
  constructor
  · intro h r hr hpair
    exact h ⟨r, hr, by simp [hpair.1, hpair.2]⟩
  · rintro h ⟨r, hr, hb⟩
    simp only [Bool.and_eq_true, beq_iff_eq] at hb
    exact h r hr hb

theorem rallyGuessCore_accepted {s : ServerState} {now : Int} {u gid rid : String} {n : Nat}
    (h : (rallyGuessCore s now u gid rid).1 = .accepted n) :
    hasUserRallied s u gid = false ∧
      (rallyGuessCore s now u gid rid).2.rallies = s.rallies ++ [⟨rid, gid, u, now⟩] ∧
      n = rallyCountOf s gid + 1 ∧
      rallyCountOf (rallyGuessCore s now u gid rid).2 gid = rallyCountOf s gid + 1 ∧
      ∀ g2, g2 ≠ gid → rallyCountOf (rallyGuessCore s now u gid rid).2 g2 = rallyCountOf s g2 := by
  have hfalse : hasUserRallied s u gid = false := by
    by_cases hr : hasUserRallied s u gid
    · exfalso
      unfold rallyGuessCore at h
      simp [hr] at h
    · simpa using hr
  rcases hgg : s.guesses gid with _ | g
  · exfalso
    unfold rallyGuessCore at h
    rw [hfalse] at h
    simp [hgg] at h
  · by_cases hc : g.cipherId = ""
    · exfalso
      unfold rallyGuessCore at h
      rw [hfalse] at h
      simp [hgg, hc] at h
    · have hres : rallyGuessCore s now u gid rid =
          (.accepted (g.rallyCount + 1),
            { s with
              rallies := s.rallies ++ [⟨rid, gid, u, now⟩]
              guesses := fun i =>
                if i = gid then some { g with rallyCount := g.rallyCount + 1 }
                else s.guesses i
              rallyRate := fun u2 =>
                if u2 = u then some (rateIncrExpire (s.rallyRate u2) now)
                else s.rallyRate u2 }) := by
        unfold rallyGuessCore
        rw [hfalse, hgg]
        simp [hc]
      rw [hres] at h ⊢
      simp only [RallyResult.accepted.injEq] at h
      have hcount : rallyCountOf s gid = g.rallyCount := by
        unfold rallyCountOf
        rw [hgg]
      refine ⟨hfalse, rfl, by omega, ?_, ?_⟩
      · unfold rallyCountOf
        simp [hgg]
      · intro g2 hne
        unfold rallyCountOf
        simp [hne]

theorem rallyGuessCore_not_accepted {s : ServerState} {now : Int} {u gid rid : String}
    (h : ∀ n, (rallyGuessCore s now u gid rid).1 ≠ .accepted n) :
    (rallyGuessCore s now u gid rid).2 = s := by
  unfold rallyGuessCore at h ⊢
  by_cases hr : hasUserRallied s u gid
  · simp [hr]
  · simp only [hr, Bool.false_eq_true, if_neg, not_false_eq_true] at h ⊢
    rcases hgg : s.guesses gid with _ | g
    · simp
    · simp only [hgg] at h ⊢
      by_cases hc : g.cipherId = ""
      · simp [hc]
      · simp only [hc, if_neg, not_false_eq_true] at h
        exact absurd rfl (h (g.rallyCount + 1))

theorem rallyGuessCore_dup {s : ServerState} {now : Int} {u gid rid : String}
    (h : hasUserRallied s u gid = true) :
    (rallyGuessCore s now u gid rid).1 = .alreadyRallied ∧
      (rallyGuessCore s now u gid rid).2 = s := by
  unfold rallyGuessCore
  simp [h]

/-- lift a fact about `rallyGuessCore` through the rate-limit gate: the
rally endpoint either returns `(rateLimited, s)` or behaves as the core. -/
theorem rallyGuess_cases (s : ServerState) (now : Int) (u gid rid : String) :
    (rallyGuess s now u gid rid = (.rateLimited, s)) ∨
      rallyGuess s now u gid rid = rallyGuessCore s now u gid rid := by
  unfold rallyGuess
  rcases hrg : rateGet (s.rallyRate u) now with _ | c
  · exact Or.inr rfl
  · by_cases hc : 10 ≤ c
    · simp [hc]
    · simp [hc]

theorem rallyGuess_accepted {s : ServerState} {now : Int} {u gid rid : String} {n : Nat}
    (h : (rallyGuess s now u gid rid).1 = .accepted n) :
    hasUserRallied s u gid = false ∧
      (rallyGuess s now u gid rid).2.rallies = s.rallies ++ [⟨rid, gid, u, now⟩] ∧
      n = rallyCountOf s gid + 1 ∧
      rallyCountOf (rallyGuess s now u gid rid).2 gid = rallyCountOf s gid + 1 ∧
      ∀ g2, g2 ≠ gid → rallyCountOf (rallyGuess s now u gid rid).2 g2 = rallyCountOf s g2 := by
  rcases rallyGuess_cases s now u gid rid with hcase | hcase
  · rw [hcase] at h
    simp at h
  · rw [hcase] at h ⊢
    exact rallyGuessCore_accepted h

theorem rallyGuess_not_accepted {s : ServerState} {now : Int} {u gid rid : String}
    (h : ∀ n, (rallyGuess s now u gid rid).1 ≠ .accepted n) :
    (rallyGuess s now u gid rid).2 = s := by
  rcases rallyGuess_cases s now u gid rid with hcase | hcase
  · rw [hcase]
  · rw [hcase] at h ⊢
    exact rallyGuessCore_not_accepted h

theorem rallyGuess_dup {s : ServerState} {now : Int} {u gid rid : String}
    (h : hasUserRallied s u gid = true) :
    (∀ n, (rallyGuess s now u gid rid).1 ≠ .accepted n) ∧
      (rallyGuess s now u gid rid).2 = s := by
  rcases rallyGuess_cases s now u gid rid with hcase | hcase
  · rw [hcase]
    simp
  · rw [hcase]
    have hd := @rallyGuessCore_dup s now u gid rid h
    refine ⟨?_, hd.2⟩
    intro n
    rw [hd.1]
    simp

/-- the rally endpoint preserves the ledger invariant. -/
theorem rallyGuess_inv {s : ServerState} (now : Int) (u gid rid : String)
    (h : LedgerInv s) : LedgerInv (rallyGuess s now u gid rid).2 := by
  by_cases hacc : ∀ n, (rallyGuess s now u gid rid).1 ≠ .accepted n
  · rw [rallyGuess_not_accepted hacc]
    exact h
  · push_neg at hacc
    obtain ⟨n, hn⟩ := hacc
    obtain ⟨hdupf, hrallies, _, hcnt, hother⟩ := rallyGuess_accepted hn
    obtain ⟨hdist, hcounts⟩ := h
    constructor
    · unfold DistinctPairs at hdist ⊢
      rw [hrallies]
      rw [List.pairwise_append]
      refine ⟨hdist, List.pairwise_singleton _ _, ?_⟩
      intro r1 hr1 r2 hr2
      simp only [List.mem_singleton] at hr2
      subst hr2
      have := hasUserRallied_false_iff.mp hdupf r1 hr1
      simpa using this
    · intro g2
      rw [hrallies]
      by_cases hg2 : g2 = gid
      · subst hg2
        rw [hcnt, hcounts g2]
        simp [List.filter_append]
      · rw [hother g2 hg2, hcounts g2]
        have : ¬((⟨rid, gid, u, now⟩ : Rally).guessId == g2) = true := by
          simp
          exact fun he => hg2 he.symm
        simp [List.filter_append, this]

theorem runRallies_inv (s : ServerState) (votes : List RallyReq)
    (h : LedgerInv s) : LedgerInv (runRallies s votes) := by
  induction votes generalizing s with
  | nil => exact h
  | cons v rest ih =>
    exact ih _ (rallyGuess_inv v.now v.username v.guessId v.rallyId h)

theorem sum_map_add_nat (gids : List String) (f g : String → Nat) :
    (gids.map fun x => f x + g x).sum = (gids.map f).sum + (gids.map g).sum := by
  induction gids with
  | nil => simp
  | cons x rest ih =>
    simp only [List.map_cons, List.sum_cons, ih]
    omega

theorem sum_map_indicator_zero (gids : List String) (x : String) (hx : x ∉ gids) :
    (gids.map fun gid => if x = gid then 1 else 0).sum = 0 := by
  induction gids with
  | nil => simp
  | cons g rest ih =>
    simp only [List.mem_cons, not_or] at hx
    simp only [List.map_cons, List.sum_cons, if_neg hx.1, ih hx.2]

theorem sum_map_indicator (gids : List String) (x : String) (hnd : gids.Nodup)
    (hx : x ∈ gids) :
    (gids.map fun gid => if x = gid then 1 else 0).sum = 1 := by
  induction gids with
  | nil => simp at hx
  | cons g rest ih =>
    rcases List.mem_cons.mp hx with h1 | h1
    · subst h1
      have hnot : x ∉ rest := (List.nodup_cons.mp hnd).1
      simp [sum_map_indicator_zero rest x hnot]
    · have hne : x ≠ g := fun he => (List.nodup_cons.mp hnd).1 (he ▸ h1)
      simp [if_neg hne, ih (List.nodup_cons.mp hnd).2 h1]

/-- counting rallies guess by guess over a duplicate-free cover of the
guess ids recovers the total number of rally records. -/
theorem filter_length_sum (l : List Rally) (gids : List String) (hnd : gids.Nodup)
    (hcov : ∀ r ∈ l, r.guessId ∈ gids) :
    (gids.map fun gid => (l.filter fun r => r.guessId == gid).length).sum = l.length := by
  induction l with
  | nil => simp
  | cons r rest ih =>
    have hcov2 : ∀ x ∈ rest, x.guessId ∈ gids := fun x hx => hcov x (List.mem_cons_of_mem r hx)
    have hr : r.guessId ∈ gids := hcov r (List.mem_cons_self r rest)
    have hstep : ∀ gid, ((r :: rest).filter fun x => x.guessId == gid).length =
        (rest.filter fun x => x.guessId == gid).length + (if r.guessId = gid then 1 else 0) := by
      intro gid
      by_cases hx : r.guessId = gid
      · simp [List.filter_cons, hx]
      · simp [List.filter_cons, hx]
    simp only [hstep]
    rw [sum_map_add_nat, ih hcov2, sum_map_indicator gids r.guessId hnd hr]
    simp

/-- C1: the vote (rally) operation either registers the (voterId, guessId)
pair and increments that guess's voteCount by exactly one (leaving all
other counters untouched), or, when the pair already exists, reports the
vote as not accepted and leaves every voteCount unchanged; and after any
sequence of vote operations from a clean ledger, the accepted pairs are
pairwise distinct and the sum of all guesses' voteCounts equals their
number. -/
theorem rally_vote_atomic_sum :
    (∀ (s : ServerState) (now : Int) (u gid rid : String),
      (∀ n, (rallyGuess s now u gid rid).1 = .accepted n →
        hasUserRallied s u gid = false ∧
          (rallyGuess s now u gid rid).2.rallies = s.rallies ++ [⟨rid, gid, u, now⟩] ∧
          n = rallyCountOf s gid + 1 ∧
          rallyCountOf (rallyGuess s now u gid rid).2 gid = rallyCountOf s gid + 1 ∧
          ∀ g2, g2 ≠ gid → rallyCountOf (rallyGuess s now u gid rid).2 g2 = rallyCountOf s g2) ∧
      (hasUserRallied s u gid = true →
        (∀ n, (rallyGuess s now u gid rid).1 ≠ .accepted n) ∧
          (rallyGuess s now u gid rid).2 = s) ∧
      ((∀ n, (rallyGuess s now u gid rid).1 ≠ .accepted n) →
        (rallyGuess s now u gid rid).2 = s)) ∧
    ∀ (s0 : ServerState) (votes : List RallyReq), CleanLedger s0 →
      DistinctPairs (runRallies s0 votes).rallies ∧
      ∀ gids : List String, gids.Nodup →
        (∀ r ∈ (runRallies s0 votes).rallies, r.guessId ∈ gids) →
        (gids.map (rallyCountOf (runRallies s0 votes))).sum =
          (runRallies s0 votes).rallies.length := by
  constructor
  · intro s now u gid rid
    exact ⟨fun n h => rallyGuess_accepted h, fun h => rallyGuess_dup h,
      fun h => rallyGuess_not_accepted h⟩
  · intro s0 votes hclean
    have hinv0 : LedgerInv s0 := by
      refine ⟨?_, ?_⟩
      · rw [hclean.1]
        exact List.Pairwise.nil
      · intro gid
        rw [hclean.1, hclean.2 gid]
        simp
    have hinv := runRallies_inv s0 votes hinv0
    refine ⟨hinv.1, ?_⟩
    intro gids hnd hcov
    have := filter_length_sum (runRallies s0 votes).rallies gids hnd hcov
    calc (gids.map (rallyCountOf (runRallies s0 votes))).sum
        = (gids.map fun gid =>
            ((runRallies s0 votes).rallies.filter fun r => r.guessId == gid).length).sum := by
          congr 1
          exact List.map_congr_left fun gid _ => hinv.2 gid
      _ = (runRallies s0 votes).rallies.length := this

/-- tiny concrete store: one cipher c1 with one zero-rally guess g1. -/
def stExample : ServerState :=
  { ciphers := fun i =>
      if i = "c1" then
        some { id := "c1", title := "t", hint := "h", solution := "SOL",
               difficulty := .Easy, format := .text, content := "x", contentUrl := none,
               timeLimit := 3, createdAt := 0, expiresAt := 10800000, isActive := true,
               sourceEvent := none, breadcrumbData := none }
      else none
    activeIndex := ["c1"]
    guesses := fun i =>
      if i = "g1" then
        some { id := "g1", cipherId := "c1", userId := "owner", username := "owner",
               content := "alpha", rallyCount := 0, createdAt := 0, isWinner := false }
      else none
    cipherGuessIds := fun i => if i = "c1" then ["g1"] else []
    rallies := []
    rallyRate := fun _ => none
    guessRate := fun _ => none }

/-- three concrete vote requests; the third repeats the first pair. -/
def votesExample : List RallyReq :=
  [⟨0, "alice", "g1", "r1"⟩, ⟨1, "bob", "g1", "r2"⟩, ⟨2, "alice", "g1", "r3"⟩]

/-- C1 witness: on the concrete store, the first vote is accepted with new
count 1, and after the three requests (one a duplicate) the counter sum
over the only guess equals the two recorded distinct pairs. -/
theorem rally_vote_atomic_sum_witness :
    (rallyGuess stExample 0 "alice" "g1" "r1").1 = .accepted 1 ∧
      rallyCountOf (rallyGuess stExample 0 "alice" "g1" "r1").2 "g1" = 1 ∧
      (["g1"].map (rallyCountOf (runRallies stExample votesExample))).sum =
        (runRallies stExample votesExample).rallies.length ∧
      (runRallies stExample votesExample).rallies.length = 2 := by
  have hacc : (rallyGuess stExample 0 "alice" "g1" "r1").1 = .accepted 1 := by decide
  have h1 := (rally_vote_atomic_sum.1 stExample 0 "alice" "g1" "r1").1 1 hacc
  have hclean : CleanLedger stExample := by
    refine ⟨rfl, ?_⟩
    intro gid
    unfold rallyCountOf stExample
    by_cases h : gid = "g1" <;> simp [h]
  have h2 := (rally_vote_atomic_sum.2 stExample votesExample hclean).2 ["g1"]
    (by simp) (by decide)
  refine ⟨hacc, ?_, h2, by decide⟩
  rw [h1.2.2.2.1]
  decide

/-! ## C3: lockdown and active-state gating of votes and submissions -/

/-- replace the cipher store of a state (used to express that an endpoint
never reads it). -/
def setCiphers (s : ServerState) (f : String → Option Cipher) : ServerState :=
  { s with ciphers := f }

/-- Boolean acceptance view of a submit outcome. -/
def submitAccepted : SubmitResult → Bool
  | .accepted _ => true
  | _ => false

/-- C3 counterexample: at time 10795000 the cipher c1 of `stExample` is
active and inside its lockdown window (5000 ms remaining), yet the rally
endpoint accepts a vote and the submit endpoint accepts a guess; nothing is
rejected with a Locked error. -/
theorem lockdown_exclusivity_counterexample :
    (stExample.ciphers "c1").map (fun c => c.isActive) = some true ∧
      (stExample.ciphers "c1").map (fun c => c.expiresAt) = some 10800000 ∧
      (10800000 - 10795000 ≤ (10000 : Int) ∧ (0 : Int) < 10800000 - 10795000) ∧
      (rallyGuess stExample 10795000 "alice" "g1" "r1").1 = .accepted 1 ∧
      submitAccepted (submitGuess stExample 10795000 "bob" "c1" "HELLO" "g9").1 = true := by
  decide

/-- C3 amended: the only puzzle-state gate in the code is on submissions,
which are rejected exactly when the cipher is missing, inactive or already
expired; a submission during the lockdown window of an active unexpired
cipher passes that gate, and the rally endpoint does not read the cipher
store at all, so votes are never rejected for puzzle-state reasons. -/
theorem lockdown_exclusivity_amended :
    (∀ (s : ServerState) (now : Int) (u cid content gid : String) (c : Cipher),
      cid ≠ "" → content ≠ "" →
      (∃ san, validateGuess content.data = .valid san) →
      (∀ k, rateGet (s.guessRate u) now = some k → k < 5) →
      s.ciphers cid = some c →
      ((¬ c.isActive = true ∨ c.expiresAt ≤ now) →
        submitGuess s now u cid content gid = (.cipherNotActive, s)) ∧
      (c.isActive = true → now < c.expiresAt →
        submitAccepted (submitGuess s now u cid content gid).1 = true)) ∧
    ∀ (s : ServerState) (f : String → Option Cipher) (now : Int) (u gid rid : String),
      (rallyGuess (setCiphers s f) now u gid rid).1 = (rallyGuess s now u gid rid).1 := by
  constructor
  · intro s now u cid content gid c hcid hcont hsan hrate hc
    obtain ⟨san, hsanEq⟩ := hsan
    have hgate : submitGuess s now u cid content gid =
        submitGuessCore s now u cid content gid san := by
      unfold submitGuess
      rcases hk : rateGet (s.guessRate u) now with _ | k
      · simp [hcid, hcont, hsanEq, hk]
      · have hlt : ¬ 5 ≤ k := by
          have := hrate k hk
          omega
        simp [hcid, hcont, hsanEq, hk, hlt]
    constructor
    · intro hdead
      rw [hgate]
      unfold submitGuessCore
      simp only [hc]
      rw [if_pos hdead]
    · intro hact hexp
      rw [hgate]
      unfold submitGuessCore
      simp only [hc]
      rw [if_neg (by push_neg; exact ⟨by simp [hact], by omega⟩)]
      rfl
  · intro s f now u gid rid
    have hrr : (setCiphers s f).rallyRate = s.rallyRate := rfl
    have hcore : (rallyGuessCore (setCiphers s f) now u gid rid).1 =
        (rallyGuessCore s now u gid rid).1 := by
      unfold rallyGuessCore
      have hh : hasUserRallied (setCiphers s f) u gid = hasUserRallied s u gid := rfl
      have hgs : (setCiphers s f).guesses = s.guesses := rfl
      rw [hh]
      by_cases hr : hasUserRallied s u gid
      · simp [hr]
      · simp only [hr, Bool.false_eq_true, if_false]
        rcases hgg : s.guesses gid with _ | g
        · simp [hgs, hgg]
        · simp only [hgs, hgg]
          by_cases hcp : g.cipherId = "" <;> simp [hcp]
    unfold rallyGuess
    rw [hrr]
    rcases rateGet (s.rallyRate u) now with _ | k
    · exact hcore
    · by_cases hk : 10 ≤ k <;> simp [hk, hcore]

/-- C3 amended witness: on the concrete store, a submission at a time past
expiry is rejected as not-active, one during the lockdown window is
accepted, and swapping out the entire cipher store does not change the
rally outcome. -/
theorem lockdown_exclusivity_amended_witness :
    submitGuess stExample 99999999 "bob" "c1" "HELLO" "g9" = (.cipherNotActive, stExample) ∧
      submitAccepted (submitGuess stExample 10795000 "bob" "c1" "HELLO" "g9").1 = true ∧
      (rallyGuess (setCiphers stExample fun _ => none) 10795000 "alice" "g1" "r1").1 =
        (rallyGuess stExample 10795000 "alice" "g1" "r1").1 := by
  have hc : stExample.ciphers "c1" = some
      { id := "c1", title := "t", hint := "h", solution := "SOL",
        difficulty := .Easy, format := .text, content := "x", contentUrl := none,
        timeLimit := 3, createdAt := 0, expiresAt := 10800000, isActive := true,
        sourceEvent := none, breadcrumbData := none } := by
    unfold stExample
    simp
  have hsan : ∃ san, validateGuess "HELLO".data = .valid san := ⟨"HELLO".data, by decide⟩
  have h1 := lockdown_exclusivity_amended.1 stExample 99999999 "bob" "c1" "HELLO" "g9" _
    (by decide) (by decide) hsan (by intro k hk; simp [stExample, rateGet] at hk) hc
  have h2 := lockdown_exclusivity_amended.1 stExample 10795000 "bob" "c1" "HELLO" "g9" _
    (by decide) (by decide) hsan (by intro k hk; simp [stExample, rateGet] at hk) hc
  have h3 := lockdown_exclusivity_amended.2 stExample (fun _ => none) 10795000 "alice" "g1" "r1"
  exact ⟨h1.1 (Or.inr (by decide)), h2.2 rfl (by decide), h3⟩

/-! ## C4: monotonicity and post-expiry freezing of vote counts -/

/-- concrete store whose cipher c1 is already expired and marked inactive
but still referenced by a zero-rally guess. -/
def stFrozen : ServerState :=
  { ciphers := fun i =>
      if i = "c1" then
        some { id := "c1", title := "t", hint := "h", solution := "SOL",
               difficulty := .Easy, format := .text, content := "x", contentUrl := none,
               timeLimit := 3, createdAt := 0, expiresAt := 10800000, isActive := false,
               sourceEvent := none, breadcrumbData := none }
      else none
    activeIndex := ["c1"]
    guesses := fun i =>
      if i = "g1" then
        some { id := "g1", cipherId := "c1", userId := "owner", username := "owner",
               content := "alpha", rallyCount := 0, createdAt := 0, isWinner := false }
      else none
    cipherGuessIds := fun i => if i = "c1" then ["g1"] else []
    rallies := []
    rallyRate := fun _ => none
    guessRate := fun _ => none }

/-- C4 counterexample: cipher c1 is expired (inactive, past its expiry at
time 20000000), yet a vote on its guess g1 is accepted and the vote count
moves 0 → 1 — the counter is not frozen after expiry. -/
theorem votecount_frozen_counterexample :
    (stFrozen.ciphers "c1").map (fun c => c.isActive) = some false ∧
      (stFrozen.ciphers "c1").map (fun c => c.expiresAt) = some 10800000 ∧
      ((10800000 : Int) ≤ 20000000) ∧
      rallyCountOf stFrozen "g1" = 0 ∧
      (rallyGuess stFrozen 20000000 "alice" "g1" "r1").1 = .accepted 1 ∧
      rallyCountOf (rallyGuess stFrozen 20000000 "alice" "g1" "r1").2 "g1" = 1 := by
  decide

/-- freshness of the ids chosen for stored guess records (the source draws
them from timestamp plus randomness): a submit operation must not reuse an
existing guess id, otherwise `hSet` would overwrite the record. -/
def FreshOp (s : ServerState) : Op → Prop
  | .submit _ _ _ _ gid => s.guesses gid = none
  | _ => True

/-- freshness along a run of operations. -/
def FreshRun : ServerState → List Op → Prop
  | _, [] => True
  | s, op :: rest => FreshOp s op ∧ FreshRun (applyOp s op) rest

theorem rallyGuess_monotone (s : ServerState) (now : Int) (u gid rid g2 : String) :
    rallyCountOf s g2 ≤ rallyCountOf (rallyGuess s now u gid rid).2 g2 := by
  by_cases hacc : ∀ n, (rallyGuess s now u gid rid).1 ≠ .accepted n
  · rw [rallyGuess_not_accepted hacc]
  · push_neg at hacc
    obtain ⟨n, hn⟩ := hacc
    obtain ⟨_, _, _, hcnt, hother⟩ := rallyGuess_accepted hn
    by_cases hg : g2 = gid
    · subst hg
      omega
    · rw [hother g2 hg]

theorem submitGuessCore_monotone (s : ServerState) (now : Int)
    (u cid content gid : String) (san : List Char) (g2 : String)
    (hfresh : s.guesses gid = none) :
    rallyCountOf s g2 ≤ rallyCountOf (submitGuessCore s now u cid content gid san).2 g2 := by
  unfold submitGuessCore
  rcases hc : s.ciphers cid with _ | c
  · simp only [hc]
    exact le_refl _
  · simp only [hc]
    by_cases hdead : ¬ c.isActive = true ∨ c.expiresAt ≤ now
    · rw [if_pos hdead]
    · rw [if_neg hdead]
      by_cases hg : g2 = gid
      · subst hg
        simp [rallyCountOf, hfresh]
      · simp [rallyCountOf, hg]

theorem submitGuess_monotone (s : ServerState) (now : Int)
    (u cid content gid g2 : String) (hfresh : s.guesses gid = none) :
    rallyCountOf s g2 ≤ rallyCountOf (submitGuess s now u cid content gid).2 g2 := by
  unfold submitGuess
  by_cases hmiss : cid = "" ∨ content = ""
  · rw [if_pos hmiss]
  · rw [if_neg hmiss]
    rcases hv : validateGuess content.data with e | san <;> simp only [hv]
    · exact le_refl _
    · rcases hr : rateGet (s.guessRate u) now with _ | k <;> simp only [hr]
      · exact submitGuessCore_monotone s now u cid content gid san g2 hfresh
      · by_cases hk : 5 ≤ k
        · rw [if_pos hk]
        · rw [if_neg hk]
          exact submitGuessCore_monotone s now u cid content gid san g2 hfresh

theorem expireCipher_rallyCount (s : ServerState) (cid g2 : String) :
    rallyCountOf (expireCipher s cid) g2 = rallyCountOf s g2 := by
  unfold expireCipher rallyCountOf
  rfl

theorem handleCipherExpiration_rallyCount (s : ServerState) (c : Cipher) (g2 : String) :
    rallyCountOf (handleCipherExpiration s c).2 g2 = rallyCountOf s g2 := by
  rcases hw : determineWinner (getCipherGuesses s c.id) with _ | w
  · simp [handleCipherExpiration, expireCipher, rallyCountOf, hw]
  · by_cases hg : g2 = w.id
    · subst hg
      rcases hsg : s.guesses w.id with _ | g <;>
        simp [handleCipherExpiration, expireCipher, rallyCountOf, hw, hsg]
    · simp [handleCipherExpiration, expireCipher, rallyCountOf, hw, hg]

theorem tickFold_rallyCount (now : Int) (l : List Cipher)
    (acc : List RtEvent × ServerState × Nat × Nat) (g2 : String) :
    rallyCountOf (l.foldl (tickStep now) acc).2.1 g2 = rallyCountOf acc.2.1 g2 := by
  induction l generalizing acc with
  | nil => rfl
  | cons c rest ih =>
    rw [List.foldl_cons, ih]
    unfold tickStep
    by_cases he : c.expiresAt ≤ now
    · simp [he, handleCipherExpiration_rallyCount]
    · simp [he]

theorem applyOp_monotone (s : ServerState) (op : Op) (g2 : String)
    (hfresh : FreshOp s op) :
    rallyCountOf s g2 ≤ rallyCountOf (applyOp s op) g2 := by
  cases op with
  | rally now u gid rid => exact rallyGuess_monotone s now u gid rid g2
  | submit now u cid content gid => exact submitGuess_monotone s now u cid content gid g2 hfresh
  | tick now =>
    simp only [applyOp]
    unfold expireCiphersTick
    rw [tickFold_rallyCount now (getActiveCiphers s now) ([], s, 0, 0) g2]
  | runExpiration cid =>
    simp only [applyOp]
    rcases hcc : s.ciphers cid with _ | c <;> simp only [hcc]
    · exact le_refl _
    · rw [handleCipherExpiration_rallyCount]

/-- C4 amended: every guess's voteCount is monotonically non-decreasing
under every modelled operation (votes, submissions with fresh record ids,
scheduler ticks, expiration handling) — at all times, including after the
owning puzzle has expired; the code does not freeze counters at expiry, as
the counterexample shows. -/
theorem votecount_monotone (s : ServerState) (ops : List Op) (g2 : String)
    (hfresh : FreshRun s ops) :
    rallyCountOf s g2 ≤ rallyCountOf (runOps s ops) g2 := by
  induction ops generalizing s with
  | nil => exact le_refl _
  | cons op rest ih =>
    unfold runOps
    rw [List.foldl_cons]
    exact le_trans (applyOp_monotone s op g2 hfresh.1) (ih (applyOp s op) hfresh.2)

/-- C4 amended witness: a concrete run (a vote on the frozen store's guess,
then a tick) never decreases g1's counter. -/
theorem votecount_monotone_witness :
    rallyCountOf stFrozen "g1" ≤
      rallyCountOf (runOps stFrozen [.rally 20000000 "alice" "g1" "r1", .tick 20000001]) "g1" :=
  votecount_monotone stFrozen [.rally 20000000 "alice" "g1" "r1", .tick 20000001] "g1"
    ⟨trivial, trivial, trivial⟩

/-! ## C9: lockdown announcement events -/

/-- a cipher is inside the T-10s lockdown window at `now`. -/
def inLockdownWindow (c : Cipher) (now : Int) : Bool :=
  decide (c.expiresAt - now ≤ 10000) && decide (0 < c.expiresAt - now)

/-- number of lockdown events for a given cipher in an event list. -/
def countLockdown (evs : List RtEvent) (cid : String) : Nat :=
  (evs.filter fun e =>
    match e with
    | .cipherLockdown c _ => c == cid
    | _ => false).length

theorem countLockdown_append (e1 e2 : List RtEvent) (cid : String) :
    countLockdown (e1 ++ e2) cid = countLockdown e1 cid + countLockdown e2 cid := by
  unfold countLockdown
  rw [List.filter_append, List.length_append]

theorem countLockdown_expired (s : ServerState) (c : Cipher) (cid : String) :
    countLockdown (handleCipherExpiration s c).1 cid = 0 := by
  unfold handleCipherExpiration countLockdown
  rcases determineWinner (getCipherGuesses s c.id) with _ | w <;> rfl

theorem tickFold_countLockdown (now : Int) (l : List Cipher)
    (acc : List RtEvent × ServerState × Nat × Nat) (cid : String) :
    countLockdown (l.foldl (tickStep now) acc).1 cid =
      countLockdown acc.1 cid +
        (l.filter fun c => c.id == cid && inLockdownWindow c now).length := by
  induction l generalizing acc with
  | nil => simp
  | cons c rest ih =>
    rw [List.foldl_cons, ih]
    have hstep : countLockdown (tickStep now acc c).1 cid =
        countLockdown acc.1 cid + (if c.id == cid && inLockdownWindow c now then 1 else 0) := by
      unfold tickStep
      have hwin : (decide (c.expiresAt - now ≤ 10000) && decide (0 < c.expiresAt - now)) =
          inLockdownWindow c now := rfl
      by_cases hw : inLockdownWindow c now = true
      · rw [← hwin] at hw
        by_cases he : c.expiresAt ≤ now
        · simp only [he, if_true, hw, if_pos]
          rw [countLockdown_append, countLockdown_append, countLockdown_expired]
          rw [hwin] at hw
          by_cases hid : c.id == cid
          · simp [countLockdown, hid, hw]
          · simp [countLockdown, hid, hw]
        · simp only [he, if_false, hw, if_pos]
          rw [countLockdown_append]
          rw [hwin] at hw
          by_cases hid : c.id == cid
          · simp [countLockdown, hid, hw]
          · simp [countLockdown, hid, hw]
      · rw [← hwin] at hw
        by_cases he : c.expiresAt ≤ now
        · simp only [he, if_true, hw, if_neg, Bool.not_eq_true]
          rw [countLockdown_append, countLockdown_expired]
          rw [hwin] at hw
          simp [hw]
        · simp only [he, if_false, hw, if_neg, Bool.not_eq_true]
          rw [hwin] at hw
          simp [hw]
    rw [hstep, List.filter_cons]
    by_cases hmatch : c.id == cid && inLockdownWindow c now
    · simp only [hmatch, if_pos, List.length_cons]
      omega
    · simp only [hmatch, if_neg, Bool.not_eq_true]
      simp at hmatch
      omega

/-- C9 amended: one scheduler tick emits exactly one lockdown event for
every occurrence of a cipher in the active list that is inside the lockdown
window — the event is therefore re-emitted on every successive tick that
still observes the cipher in the window (see the counterexample), rather
than once per puzzle. -/
theorem lockdown_emitted_per_tick (s : ServerState) (now : Int) (cid : String) :
    countLockdown (expireCiphersTick s now).1 cid =
      ((getActiveCiphers s now).filter fun c => c.id == cid && inLockdownWindow c now).length := by
  unfold expireCiphersTick
  rw [tickFold_countLockdown]
  simp [countLockdown]

/-- C9 counterexample: cipher c1 of `stExample` (expiry 10800000) is inside
the lockdown window on two successive scheduler ticks at 10795000 and
10796000, and each tick emits the lockdown announcement again: two events
in total, not one. -/
theorem lockdown_once_counterexample :
    inLockdownWindow
        { id := "c1", title := "t", hint := "h", solution := "SOL",
          difficulty := .Easy, format := .text, content := "x", contentUrl := none,
          timeLimit := 3, createdAt := 0, expiresAt := 10800000, isActive := true,
          sourceEvent := none, breadcrumbData := none } 10795000 = true ∧
      countLockdown (expireCiphersTick stExample 10795000).1 "c1" = 1 ∧
      countLockdown (expireCiphersTick (expireCiphersTick stExample 10795000).2.1 10796000).1
          "c1" = 1 := by
  decide

/-! ## C7: guess-submission rate limiting -/

theorem rateIncrExpire_of_get_some {e : Option RateEntry} {now : Int} {k : Nat}
    (h : rateGet e now = some k) : rateIncrExpire e now = ⟨k + 1, now + 60000⟩ := by
  rcases e with _ | r
  · simp [rateGet] at h
  · simp only [rateGet] at h
    by_cases hlt : now < r.expiresAt
    · rw [if_pos hlt] at h
      cases h
      simp [rateIncrExpire, hlt]
    · rw [if_neg hlt] at h
      cases h

theorem rateIncrExpire_of_get_none {e : Option RateEntry} {now : Int}
    (h : rateGet e now = none) : rateIncrExpire e now = ⟨1, now + 60000⟩ := by
  rcases e with _ | r
  · rfl
  · simp only [rateGet] at h
    by_cases hlt : now < r.expiresAt
    · rw [if_pos hlt] at h
      cases h
    · simp [rateIncrExpire, hlt]

/-- the submit endpoint reduces to its core when the parameters are present,
validation succeeds and the rate counter is below the limit. -/
theorem submitGuess_gate (s : ServerState) (now : Int) (u cid content gid : String)
    (san : List Char) (hcid : cid ≠ "") (hcont : content ≠ "")
    (hsanEq : validateGuess content.data = .valid san)
    (hrate : ∀ k, rateGet (s.guessRate u) now = some k → k < 5) :
    submitGuess s now u cid content gid = submitGuessCore s now u cid content gid san := by
  unfold submitGuess
  rcases hk : rateGet (s.guessRate u) now with _ | k
  · simp [hcid, hcont, hsanEq, hk]
  · have hlt : ¬ 5 ≤ k := by
      have := hrate k hk
      omega
    simp [hcid, hcont, hsanEq, hk, hlt]

/-- the submit core accepts on an active unexpired cipher and updates only
the guess store, guess index and rate counter. -/
theorem submitGuessCore_ok (s : ServerState) (now : Int) (u cid content gid : String)
    (san : List Char) (c : Cipher) (hc : s.ciphers cid = some c)
    (hact : c.isActive = true) (hexp : now < c.expiresAt) :
    submitAccepted (submitGuessCore s now u cid content gid san).1 = true ∧
      (submitGuessCore s now u cid content gid san).2.ciphers = s.ciphers ∧
      (submitGuessCore s now u cid content gid san).2.guessRate =
        fun u2 => if u2 = u then some (rateIncrExpire (s.guessRate u2) now)
                  else s.guessRate u2 := by
  unfold submitGuessCore
  simp only [hc]
  rw [if_neg (by push_neg; exact ⟨by simp [hact], by omega⟩)]
  exact ⟨rfl, rfl, rfl⟩

/-- the submit endpoint returns `(rateLimited, s)` unchanged when the
visible counter has reached 5. -/
theorem submitGuess_limited (s : ServerState) (now : Int) (u cid content gid : String)
    (san : List Char) (k : Nat) (hcid : cid ≠ "") (hcont : content ≠ "")
    (hsanEq : validateGuess content.data = .valid san)
    (hk : rateGet (s.guessRate u) now = some k) (h5 : 5 ≤ k) :
    submitGuess s now u cid content gid = (.rateLimited, s) := by
  unfold submitGuess
  simp [hcid, hcont, hsanEq, hk, h5]

/-- one accepted submission step: acceptance, preservation of the cipher
store, and the exact new value of the caller's rate counter. -/
theorem submitStep (s : ServerState) (t : Int) (u cid content gid : String)
    (san : List Char) (c : Cipher) (k : Nat)
    (hcid : cid ≠ "") (hcont : content ≠ "")
    (hsanEq : validateGuess content.data = .valid san)
    (hc : s.ciphers cid = some c) (hact : c.isActive = true) (hexp : t < c.expiresAt)
    (hkrate : rateGet (s.guessRate u) t = some k ∨ rateGet (s.guessRate u) t = none ∧ k = 0)
    (hklt : k < 5) :
    submitAccepted (submitGuess s t u cid content gid).1 = true ∧
      (submitGuess s t u cid content gid).2.ciphers = s.ciphers ∧
      (submitGuess s t u cid content gid).2.guessRate u = some ⟨k + 1, t + 60000⟩ := by
  have hrate : ∀ k2, rateGet (s.guessRate u) t = some k2 → k2 < 5 := by
    intro k2 hk2
    rcases hkrate with h | ⟨h, _⟩
    · rw [h] at hk2
      cases hk2
      exact hklt
    · rw [h] at hk2
      cases hk2
  rw [submitGuess_gate s t u cid content gid san hcid hcont hsanEq hrate]
  have hcore := submitGuessCore_ok s t u cid content gid san c hc hact hexp
  refine ⟨hcore.1, hcore.2.1, ?_⟩
  rw [hcore.2.2]
  show (if u = u then some (rateIncrExpire (s.guessRate u) t) else s.guessRate u) =
    some ⟨k + 1, t + 60000⟩
  rw [if_pos rfl]
  rcases hkrate with h | ⟨h, hk0⟩
  · rw [rateIncrExpire_of_get_some h]
  · rw [rateIncrExpire_of_get_none h, hk0]

/-- run a sequence of submissions (same submitter, cipher and content;
per-request time and fresh guess id) and collect the outcomes. -/
def submitSeq (s : ServerState) (u cid content : String) :
    List (Int × String) → List SubmitResult × ServerState
  | [] => ([], s)
  | (t, gid) :: rest =>
    let r := submitGuess s t u cid content gid
    let tail := submitSeq r.2 u cid content rest
    (r.1 :: tail.1, tail.2)

/-- C7: with a clean rate window, six submissions inside one 60-second
window see the first five accepted and the sixth rejected with RateLimited,
and a seventh submission after the window has rolled over (at least 60s
after the fifth accepted one) succeeds. -/
theorem submission_rate_limit (s : ServerState) (u cid content : String) (c : Cipher)
    (t t7 : Int) (g1 g2 g3 g4 g5 g6 g7 : String) (san : List Char)
    (hcid : cid ≠ "") (hcont : content ≠ "")
    (hsan : validateGuess content.data = .valid san)
    (hrate0 : rateGet (s.guessRate u) t = none)
    (hc : s.ciphers cid = some c) (hact : c.isActive = true)
    (hexp : t < c.expiresAt) (hexp7 : t7 < c.expiresAt) (hroll : t + 60000 ≤ t7) :
    (submitSeq s u cid content
        [(t, g1), (t, g2), (t, g3), (t, g4), (t, g5), (t, g6), (t7, g7)]).1.map submitAccepted =
      [true, true, true, true, true, false, true] ∧
    (submitSeq s u cid content
        [(t, g1), (t, g2), (t, g3), (t, g4), (t, g5), (t, g6), (t7, g7)]).1[5]? =
      some .rateLimited := by
  have hlt60 : t < t + 60000 := by omega
  have h1 := submitStep s t u cid content g1 san c 0 hcid hcont hsan hc hact hexp
    (Or.inr ⟨hrate0, rfl⟩) (by omega)
  set s1 := (submitGuess s t u cid content g1).2 with hs1
  have hc1 : s1.ciphers cid = some c := by rw [h1.2.1]; exact hc
  have hr1 : rateGet (s1.guessRate u) t = some 1 := by
    rw [h1.2.2]
    simp [rateGet, hlt60]
  have h2 := submitStep s1 t u cid content g2 san c 1 hcid hcont hsan hc1 hact hexp
    (Or.inl hr1) (by omega)
  set s2 := (submitGuess s1 t u cid content g2).2 with hs2
  have hc2 : s2.ciphers cid = some c := by rw [h2.2.1]; exact hc1
  have hr2 : rateGet (s2.guessRate u) t = some 2 := by
    rw [h2.2.2]
    simp [rateGet, hlt60]
  have h3 := submitStep s2 t u cid content g3 san c 2 hcid hcont hsan hc2 hact hexp
    (Or.inl hr2) (by omega)
  set s3 := (submitGuess s2 t u cid content g3).2 with hs3
  have hc3 : s3.ciphers cid = some c := by rw [h3.2.1]; exact hc2
  have hr3 : rateGet (s3.guessRate u) t = some 3 := by
    rw [h3.2.2]
    simp [rateGet, hlt60]
  have h4 := submitStep s3 t u cid content g4 san c 3 hcid hcont hsan hc3 hact hexp
    (Or.inl hr3) (by omega)
  set s4 := (submitGuess s3 t u cid content g4).2 with hs4
  have hc4 : s4.ciphers cid = some c := by rw [h4.2.1]; exact hc3
  have hr4 : rateGet (s4.guessRate u) t = some 4 := by
    rw [h4.2.2]
    simp [rateGet, hlt60]
  have h5 := submitStep s4 t u cid content g5 san c 4 hcid hcont hsan hc4 hact hexp
    (Or.inl hr4) (by omega)
  set s5 := (submitGuess s4 t u cid content g5).2 with hs5
  have hc5 : s5.ciphers cid = some c := by rw [h5.2.1]; exact hc4
  have hr5 : rateGet (s5.guessRate u) t = some 5 := by
    rw [h5.2.2]
    simp [rateGet, hlt60]
  have h6 := submitGuess_limited s5 t u cid content g6 san 5 hcid hcont hsan hr5 (le_refl 5)
  have hs6state : (submitGuess s5 t u cid content g6).2 = s5 := by rw [h6]
  have hr7none : rateGet (s5.guessRate u) t7 = none := by
    rw [h5.2.2]
    simp only [rateGet]
    rw [if_neg (by omega)]
  have h7 := submitStep s5 t7 u cid content g7 san c 0 hcid hcont hsan hc5 hact hexp7
    (Or.inr ⟨hr7none, rfl⟩) (by omega)
  constructor
  · simp only [submitSeq, List.map_cons, List.map_nil]
    rw [← hs1, ← hs2, ← hs3, ← hs4, ← hs5, hs6state]
    rw [h1.1, h2.1, h3.1, h4.1, h5.1, h6, h7.1]
    rfl
  · simp only [submitSeq]
    rw [← hs1, ← hs2, ← hs3, ← hs4, ← hs5, hs6state, h6]
    rfl

/-! ## C8: guess validation against the spec's normalization rules -/

/-- two consecutive plain spaces (U+0020) somewhere in the string: the
spec's "no run of two or more consecutive spaces". -/
def hasDoubleSpace : List Char → Bool
  | [] => false
  | [_] => false
  | a :: b :: rest => (a == Char.ofNat 32 && b == Char.ofNat 32) || hasDoubleSpace (b :: rest)

/-- Spec-side normalization predicate, written from the spec's words as the
refinement reference: non-empty after trimming, at most 100 characters,
only letters/digits/spaces, and no run of two or more consecutive
spaces. -/
def specGuessValid (content : List Char) : Prop :=
  jsTrim content ≠ [] ∧ content.length ≤ 100 ∧
    (∀ c ∈ content, isGuessAlnum c = true ∨ c = Char.ofNat 32) ∧
    hasDoubleSpace content = false

instance (content : List Char) : Decidable (specGuessValid content) := by
  unfold specGuessValid
  infer_instance

theorem isGuessAlnum_not_ws {c : Char} (h : isGuessAlnum c = true) :
    isJsWhitespace c = false := by
  unfold isGuessAlnum at h
  rw [decide_eq_true_iff] at h
  unfold isJsWhitespace
  rw [decide_eq_false_iff_not]
  omega

theorem hasWsRun_false_of (l : List Char)
    (hchars : ∀ c ∈ l, isGuessAlnum c = true ∨ c = Char.ofNat 32)
    (hds : hasDoubleSpace l = false) : hasWsRun l = false := by
  induction l with
  | nil => rfl
  | cons a tail ih =>
    cases tail with
    | nil => rfl
    | cons b rest =>
      have hW : hasWsRun (a :: b :: rest) =
          ((isJsWhitespace a && isJsWhitespace b) || hasWsRun (b :: rest)) := rfl
      have hD : hasDoubleSpace (a :: b :: rest) =
          ((a == Char.ofNat 32 && b == Char.ofNat 32) || hasDoubleSpace (b :: rest)) := rfl
      rw [hD, Bool.or_eq_false_iff] at hds
      rw [hW, Bool.or_eq_false_iff]
      refine ⟨?_, ih (fun c hc => hchars c (List.mem_cons_of_mem a hc)) hds.2⟩
      rcases hchars a (List.mem_cons_self a (b :: rest)) with ha | ha
      · simp [isGuessAlnum_not_ws ha]
      · rcases hchars b (List.mem_cons_of_mem a (List.mem_cons_self b rest)) with hb | hb
        · simp [isGuessAlnum_not_ws hb]
        · exfalso
          rw [ha, hb] at hds
          simp at hds

/-- C8 counterexample: a single space fails the spec's normalization rules
(it is empty after trimming), yet `validateGuess` accepts it — the code's
emptiness check runs before any trimming, so whitespace-only input is
valid. -/
theorem guess_validation_counterexample :
    validateGuessOk [Char.ofNat 32] = true ∧ ¬ specGuessValid [Char.ofNat 32] := by
  decide

/-- C8 amended: every input satisfying the spec's normalization rules is
accepted, but acceptance is exactly: non-empty (before trimming), at most
100 characters, every character a letter, digit or JS whitespace character,
and no two consecutive whitespace characters — so whitespace-only inputs
and non-space whitespace such as tabs are also accepted. -/
theorem guess_validation_characterization :
    (∀ content : List Char, specGuessValid content → validateGuessOk content = true) ∧
      ∀ content : List Char,
        validateGuessOk content = true ↔
          content ≠ [] ∧ content.length ≤ 100 ∧
            (∀ c ∈ content, isGuessAlnum c = true ∨ isJsWhitespace c = true) ∧
            hasWsRun content = false := by
  have hiff : ∀ content : List Char,
      validateGuessOk content = true ↔
        content ≠ [] ∧ content.length ≤ 100 ∧
          (∀ c ∈ content, isGuessAlnum c = true ∨ isJsWhitespace c = true) ∧
          hasWsRun content = false := by
    intro content
    unfold validateGuessOk validateGuess
    by_cases h1 : content = []
    · simp [h1]
    · rw [if_neg h1]
      by_cases h2 : 100 < content.length
      · rw [if_pos h2]
        have hlen : ¬ content.length ≤ 100 := by omega
        simp [h1, hlen]
      · rw [if_neg h2]
        by_cases h3 : content.all (fun c => isGuessAlnum c || isJsWhitespace c) = true
        · rw [if_neg (by simp [h3])]
          by_cases h4 : hasWsRun content = true
          · rw [if_pos h4]
            simp [h4]
          · rw [if_neg h4]
            constructor
            · intro _
              refine ⟨h1, by omega, ?_, by simpa using h4⟩
              intro c hc
              have := List.all_eq_true.mp h3 c hc
              simpa using this
            · intro _
              rfl
        · rw [if_pos (by simpa using h3)]
          have hrhs : ¬ ∀ c ∈ content, isGuessAlnum c = true ∨ isJsWhitespace c = true := by
            intro hall
            apply h3
            rw [List.all_eq_true]
            intro c hc
            rcases hall c hc with h | h <;> simp [h]
          simp [hrhs]
  refine ⟨?_, hiff⟩
  intro content hspec
  obtain ⟨htrim, hlen, hchars, hds⟩ := hspec
  refine (hiff content).mpr ⟨?_, hlen, ?_, hasWsRun_false_of content hchars hds⟩
  · intro he
    apply htrim
    rw [he]
    rfl
  · intro c hc
    rcases hchars c hc with h | h
    · exact Or.inl h
    · exact Or.inr (by rw [h]; decide)

/-- C8 amended witness: a concrete spec-valid input is accepted and
non-empty by the characterization. -/
theorem guess_validation_characterization_witness :
    validateGuessOk "HELLO WORLD".data = true ∧ "HELLO WORLD".data ≠ [] := by
  have h1 := guess_validation_characterization.1 "HELLO WORLD".data (by decide)
  have h2 := (guess_validation_characterization.2 "HELLO WORLD".data).mp h1
  exact ⟨h1, h2.1⟩

/-- C7 witness: the scenario instantiated on the concrete store at t = 0
with rollover at t = 60000. -/
theorem submission_rate_limit_witness :
    (submitSeq stExample "alice" "c1" "HELLO"
        [(0, "s1"), (0, "s2"), (0, "s3"), (0, "s4"), (0, "s5"), (0, "s6"),
          (60000, "s7")]).1.map submitAccepted =
      [true, true, true, true, true, false, true] := by
  have h := submission_rate_limit stExample "alice" "c1" "HELLO"
    { id := "c1", title := "t", hint := "h", solution := "SOL",
      difficulty := .Easy, format := .text, content := "x", contentUrl := none,
      timeLimit := 3, createdAt := 0, expiresAt := 10800000, isActive := true,
      sourceEvent := none, breadcrumbData := none }
    0 60000 "s1" "s2" "s3" "s4" "s5" "s6" "s7" "HELLO".data
    (by decide) (by decide) (by decide) (by decide)
    (by unfold stExample; simp) rfl (by decide) (by decide) (by decide)
  exact h.1

/-! ## C5: the fallback cipher pool

`CipherGenerationService.selectFallbackCipher`
(src/server/core/cipher-generation.ts, lines 116-157) reads the stored pool
(JSON), replenishes it via `getFallbackCipherPool(50)` when its size is
below `MIN_FALLBACK_POOL_SIZE = 5`, removes a random element, re-stamps its
createdAt/expiresAt, and on any error falls back to
`getRandomFallbackCipher()` over the hard-coded `FALLBACK_CIPHERS`
templates (fallback-ciphers module, reproduced in splash-screen.ts).
Randomness (`Math.random()` draws reduced modulo the relevant range) and
uuid generation are explicit input streams. -/

/-- a fallback template: a Cipher without id/createdAt/expiresAt/isActive
(`Omit<Cipher, 'id' | 'createdAt' | 'expiresAt' | 'isActive'>`). -/
structure CipherTemplate where
  title : String
  hint : String
  solution : String
  difficulty : Difficulty
  format : CipherFormat
  content : String
  contentUrl : Option String
  timeLimit : Int
  sourceEvent : Option String
  breadcrumbData : Option BreadcrumbMetadata
deriving DecidableEq, Repr

/-- the ten hard-coded fallback templates.  `u` is the stream of
`uuidv4()` narrative-thread ids drawn at module load. -/
def FALLBACK_CIPHERS (u : Nat → String) : List CipherTemplate :=
  [{ title := "Digital Privacy Cipher #1", hint := "Caesar\x27s shift in the digital age",
     solution := "ENCRYPTION", difficulty := .Easy, format := .text,
     content := "HQFUBSWLRQ", contentUrl := none, timeLimit := 3,
     sourceEvent := some "Recent ECPA privacy legislation discussion",
     breadcrumbData := some
       { narrative_thread_id := u 0, connection_weight_tenths := 8,
         thematic_category := .privacy,
         cipher_source_event := "ECPA privacy legislation", unlock_threshold := 50 } },
   { title := "Audit Trail Mystery", hint := "Follow the money, backwards",
     solution := "COMPLIANCE", difficulty := .Medium, format := .text,
     content := "ECNAILPMOC", contentUrl := none, timeLimit := 4,
     sourceEvent := some "PCAOB audit standards update",
     breadcrumbData := some
       { narrative_thread_id := u 1, connection_weight_tenths := 7,
         thematic_category := .auditing,
         cipher_source_event := "PCAOB standards update", unlock_threshold := 50 } },
   { title := "Patent Puzzle", hint := "Base64 encoding of innovation",
     solution := "INVENTION", difficulty := .Easy, format := .text,
     content := "SU5WRU5USU9O", contentUrl := none, timeLimit := 3,
     sourceEvent := some "USPTO patent reform discussion",
     breadcrumbData := some
       { narrative_thread_id := u 2, connection_weight_tenths := 6,
         thematic_category := .patents,
         cipher_source_event := "USPTO reform discussion", unlock_threshold := 50 } },
   { title := "Surveillance State", hint := "Atbash cipher from ancient times",
     solution := "PRIVACY", difficulty := .Medium, format := .text,
     content := "KIREZBX", contentUrl := none, timeLimit := 4,
     sourceEvent := some "Digital surveillance legislation debate",
     breadcrumbData := some
       { narrative_thread_id := u 3, connection_weight_tenths := 9,
         thematic_category := .privacy,
         cipher_source_event := "Surveillance legislation debate", unlock_threshold := 50 } },
   { title := "Financial Controls", hint := "ROT13 for the modern auditor",
     solution := "OVERSIGHT", difficulty := .Easy, format := .text,
     content := "BIREFVTUG", contentUrl := none, timeLimit := 3,
     sourceEvent := some "SOX compliance requirements update",
     breadcrumbData := some
       { narrative_thread_id := u 4, connection_weight_tenths := 5,
         thematic_category := .auditing,
         cipher_source_event := "SOX compliance update", unlock_threshold := 50 } },
   { title := "Intellectual Property Lock", hint := "Vigenère with key \x27USPTO\x27",
     solution := "INNOVATION", difficulty := .Hard, format := .text,
     content := "CJJSPMFCSR", contentUrl := none, timeLimit := 5,
     sourceEvent := some "Patent litigation landmark case",
     breadcrumbData := some
       { narrative_thread_id := u 5, connection_weight_tenths := 8,
         thematic_category := .patents,
         cipher_source_event := "Patent litigation case", unlock_threshold := 50 } },
   { title := "Data Protection Protocol", hint := "Binary to ASCII conversion",
     solution := "SECURITY", difficulty := .Medium, format := .text,
     content := "01010011 01000101 01000011 01010101 01010010 01001001 01010100 01011001",
     contentUrl := none, timeLimit := 4,
     sourceEvent := some "GDPR enforcement action",
     breadcrumbData := some
       { narrative_thread_id := u 6, connection_weight_tenths := 7,
         thematic_category := .privacy,
         cipher_source_event := "GDPR enforcement", unlock_threshold := 50 } },
   { title := "Audit Evidence Chain", hint := "Morse code for accountants",
     solution := "EVIDENCE", difficulty := .Medium, format := .text,
     content := ". ...- .. -.. . -. -.-. .", contentUrl := none, timeLimit := 4,
     sourceEvent := some "Audit evidence standards revision",
     breadcrumbData := some
       { narrative_thread_id := u 7, connection_weight_tenths := 6,
         thematic_category := .auditing,
         cipher_source_event := "Evidence standards revision", unlock_threshold := 50 } },
   { title := "Prior Art Discovery", hint := "Hexadecimal encoding",
     solution := "RESEARCH", difficulty := .Easy, format := .text,
     content := "52455345415243", contentUrl := none, timeLimit := 3,
     sourceEvent := some "Patent search algorithm improvement",
     breadcrumbData := some
       { narrative_thread_id := u 8, connection_weight_tenths := 4,
         thematic_category := .patents,
         cipher_source_event := "Search algorithm improvement", unlock_threshold := 50 } },
   { title := "Encrypted Communications", hint := "Playfair cipher with key \x27CICADA\x27",
     solution := "ANONYMOUS", difficulty := .Hard, format := .text,
     content := "BMPMXNQVR", contentUrl := none, timeLimit := 5,
     sourceEvent := some "Encrypted messaging app court case",
     breadcrumbData := some
       { narrative_thread_id := u 9, connection_weight_tenths := 9,
         thematic_category := .privacy,
         cipher_source_event := "Messaging app court case", unlock_threshold := 50 } }]

/-- template instantiation shared by `getRandomFallbackCipher` and
`getFallbackCipherPool`: fresh id, stamped now / now + budget, active. -/
def instantiateTemplate (id : String) (now : Int) (t : CipherTemplate) : Cipher :=
  { id := id, title := t.title, hint := t.hint, solution := t.solution,
    difficulty := t.difficulty, format := t.format, content := t.content,
    contentUrl := t.contentUrl, timeLimit := t.timeLimit, createdAt := now,
    expiresAt := now + t.timeLimit * 60 * 60 * 1000, isActive := true,
    sourceEvent := t.sourceEvent, breadcrumbData := t.breadcrumbData }

/-- `getRandomFallbackCipher`: a uniformly random template, instantiated;
`none` models the `throw` on an out-of-range index (an empty template
list). -/
def getRandomFallbackCipher (u : Nat → String) (id : String) (rnd : Nat) (now : Int) :
    Option Cipher :=
  let tpl := FALLBACK_CIPHERS u
  match tpl.get? (rnd % tpl.length) with
  | none => none
  | some t => some (instantiateTemplate id now t)

/-- the inner skip-forward loop of `getFallbackCipherPool`: advance past
already-used indices, wrapping modulo the template count (`fuel` bounds the
scan; one full wrap suffices whenever an unused index exists). -/
def nextUnused (used : List Nat) (len : Nat) (idx : Nat) : Nat → Nat
  | 0 => idx
  | Nat.succ f => if used.contains idx then nextUnused used len ((idx + 1) % len) f else idx

/-- the sampling loop of `getFallbackCipherPool`: as long as fewer than
`count` ciphers are built and not all template indices are used, draw an
index, skip past used ones, mark it used and instantiate.  `used.length`
models `usedIndices.size` (each added index is fresh while unused indices
remain), which also bounds the iteration count by the template count — the
fuel. -/
def buildPoolAux (tpl : List CipherTemplate) (ids : Nat → String) (rnd : Nat → Nat)
    (now : Int) (count : Nat) : Nat → List Nat → List Cipher → List Cipher
  | 0, _, acc => acc
  | Nat.succ fuel, used, acc =>
    if acc.length < count ∧ used.length < tpl.length then
      let idx := nextUnused used tpl.length (rnd used.length % tpl.length) tpl.length
      match tpl.get? idx with
      | none => buildPoolAux tpl ids rnd now count fuel (used ++ [idx]) acc
      | some t =>
        buildPoolAux tpl ids rnd now count fuel (used ++ [idx])
          (acc ++ [instantiateTemplate (ids used.length) now t])
    else acc

/-- `getFallbackCipherPool(count)`: sample templates without repeats within
one refill batch. -/
def getFallbackCipherPool (u ids : Nat → String) (rnd : Nat → Nat) (now : Int)
    (count : Nat) : List Cipher :=
  buildPoolAux (FALLBACK_CIPHERS u) ids rnd now count (FALLBACK_CIPHERS u).length [] []

/-- the re-stamping applied to the selected pool cipher:
`createdAt = now`, `expiresAt = now + timeLimit hours`. -/
def restampCipher (c : Cipher) (now : Int) : Cipher :=
  { c with createdAt := now, expiresAt := now + c.timeLimit * 60 * 60 * 1000 }

/-- `selectFallbackCipher`: load the stored pool (absent key = empty),
replenish when below the floor of 5 to a batch of 50 (capped by the ten
templates), pick a random element, splice it out and re-stamp it; when the
selection comes up empty the thrown error is caught and
`getRandomFallbackCipher` is the last resort.  Returns the result and the
new stored pool. -/
def selectFallbackCipher (poolData : Option (List Cipher)) (u ids : Nat → String)
    (rnd : Nat → Nat) (sel : Nat) (lastResortId : String) (lastResortRnd : Nat)
    (now : Int) : Option Cipher × List Cipher :=
  let pool0 := poolData.getD []
  let pool := if pool0.length < 5 then getFallbackCipherPool u ids rnd now 50 else pool0
  match pool.get? (sel % pool.length) with
  | none => (getRandomFallbackCipher u lastResortId lastResortRnd now, pool)
  | some c => (some (restampCipher c now), pool.eraseIdx (sel % pool.length))

theorem fallback_templates_timeLimit_pos (u : Nat → String) :
    ∀ t ∈ FALLBACK_CIPHERS u, 0 < t.timeLimit := by
  intro t ht
  unfold FALLBACK_CIPHERS at ht
  simp only [List.mem_cons, List.not_mem_nil, or_false] at ht
  rcases ht with rfl | rfl | rfl | rfl | rfl | rfl | rfl | rfl | rfl | rfl <;> norm_num

theorem buildPoolAux_timeLimit_pos (tpl : List CipherTemplate) (ids : Nat → String)
    (rnd : Nat → Nat) (now : Int) (count : Nat)
    (htpl : ∀ t ∈ tpl, 0 < t.timeLimit) :
    ∀ (fuel : Nat) (used : List Nat) (acc : List Cipher),
      (∀ c ∈ acc, 0 < c.timeLimit) →
      ∀ c ∈ buildPoolAux tpl ids rnd now count fuel used acc, 0 < c.timeLimit := by
  intro fuel
  induction fuel with
  | zero => exact fun used acc hacc => hacc
  | succ f ih =>
    intro used acc hacc c hc
    unfold buildPoolAux at hc
    by_cases hcond : acc.length < count ∧ used.length < tpl.length
    · rw [if_pos hcond] at hc
      rcases hidx : tpl.get? (nextUnused used tpl.length (rnd used.length % tpl.length)
          tpl.length) with _ | t
      · simp only [hidx] at hc
        exact ih (used ++ [nextUnused used tpl.length (rnd used.length % tpl.length)
          tpl.length]) acc hacc c hc
      · simp only [hidx] at hc
        refine ih _ _ ?_ c hc
        intro c2 hc2
        rcases List.mem_append.mp hc2 with h | h
        · exact hacc c2 h
        · rw [List.mem_singleton.mp h]
          exact htpl t (List.get?_mem hidx)
    · rw [if_neg hcond] at hc
      exact hacc c hc

/-- C5 amended: taking from the fallback pool never fails: for every stored
pool whose entries carry positive time budgets (true of every pool the code
ever writes, since pools are built from the templates), the take returns a
cipher re-stamped to `createdAt = now` and
`expiresAt = now + timeLimit hours > createdAt`; when the pool is empty it
is replenished from the fixed template set and a randomly chosen template
instance is returned — a random template, not a single deterministic
built-in puzzle (see the counterexample). -/
theorem fallback_take_total (poolData : Option (List Cipher)) (u ids : Nat → String)
    (rnd : Nat → Nat) (sel : Nat) (lrid : String) (lrr : Nat) (now : Int)
    (hpool : ∀ c ∈ poolData.getD [], 0 < c.timeLimit) :
    ∃ c, (selectFallbackCipher poolData u ids rnd sel lrid lrr now).1 = some c ∧
      c.createdAt = now ∧ c.expiresAt = now + c.timeLimit * 60 * 60 * 1000 ∧
      c.createdAt < c.expiresAt := by
  unfold selectFallbackCipher
  set pool0 := poolData.getD [] with hpool0
  set pool := if pool0.length < 5 then getFallbackCipherPool u ids rnd now 50 else pool0
    with hpoolDef
  have hpos : ∀ c ∈ pool, 0 < c.timeLimit := by
    rw [hpoolDef]
    by_cases hlow : pool0.length < 5
    · rw [if_pos hlow]
      unfold getFallbackCipherPool
      exact buildPoolAux_timeLimit_pos (FALLBACK_CIPHERS u) ids rnd now 50
        (fallback_templates_timeLimit_pos u) (FALLBACK_CIPHERS u).length [] []
        (by intro c hc; cases hc)
    · rw [if_neg hlow]
      exact hpool
  rcases hsel : pool.get? (sel % pool.length) with _ | c
  · simp only [hsel]
    have hlen : (FALLBACK_CIPHERS u).length = 10 := rfl
    have hlt : lrr % (FALLBACK_CIPHERS u).length < (FALLBACK_CIPHERS u).length := by
      rw [hlen]
      omega
    rcases hget : (FALLBACK_CIPHERS u).get? (lrr % (FALLBACK_CIPHERS u).length) with _ | t
    · rw [List.get?_eq_none] at hget
      omega
    · have htl : 0 < t.timeLimit :=
        fallback_templates_timeLimit_pos u t (List.get?_mem hget)
      refine ⟨instantiateTemplate lrid now t, ?_, rfl, rfl, by
        unfold instantiateTemplate
        simp only
        omega⟩
      unfold getRandomFallbackCipher
      simp only [hget]
  · simp only [hsel]
    have htl : 0 < c.timeLimit := hpos c (List.get?_mem hsel)
    refine ⟨restampCipher c now, rfl, rfl, rfl, ?_⟩
    unfold restampCipher
    simp only
    omega

/-- C5 amended witness: an empty stored pool (with vacuously positive
budgets) still yields a re-stamped cipher. -/
theorem fallback_take_total_witness :
    ∃ c, (selectFallbackCipher none (fun _ => "u") (fun _ => "i") (fun _ => 0) 0 "lr" 0
        1000).1 = some c ∧
      c.createdAt = 1000 ∧ c.expiresAt = 1000 + c.timeLimit * 60 * 60 * 1000 ∧
      c.createdAt < c.expiresAt :=
  fallback_take_total none (fun _ => "u") (fun _ => "i") (fun _ => 0) 0 "lr" 0 1000
    (by intro c hc; cases hc)

/-- C5 counterexample: with the pool empty, two runs differing only in the
random stream return different puzzles (different titles), so the empty
pool is not served by a single deterministic synthesized puzzle — it is
replenished from the template set and drawn from at random. -/
theorem fallback_deterministic_counterexample :
    ((selectFallbackCipher none (fun _ => "") (fun _ => "") (fun _ => 0) 0 "" 0 0).1.map
        fun c => c.title) = some "Digital Privacy Cipher #1" ∧
      ((selectFallbackCipher none (fun _ => "") (fun _ => "") (fun _ => 1) 0 "" 0 0).1.map
        fun c => c.title) = some "Audit Trail Mystery" ∧
      (selectFallbackCipher none (fun _ => "") (fun _ => "") (fun _ => 0) 0 "" 0 0).1 ≠
        (selectFallbackCipher none (fun _ => "") (fun _ => "") (fun _ => 1) 0 "" 0 0).1 := by
  refine ⟨by decide, by decide, ?_⟩
  intro he
  have h1 : ((selectFallbackCipher none (fun _ => "") (fun _ => "") (fun _ => 0) 0 "" 0
      0).1.map fun c => c.title) = some "Digital Privacy Cipher #1" := by decide
  have h2 : ((selectFallbackCipher none (fun _ => "") (fun _ => "") (fun _ => 1) 0 "" 0
      0).1.map fun c => c.title) = some "Audit Trail Mystery" := by decide
  rw [he] at h1
  exact absurd (h1.symm.trans h2) (by decide)

/-! ## C6: the duplicate-guard retry loop

`CipherGenerationService.performAIGeneration`
(src/server/core/cipher-generation.ts, lines 65-111) runs one pipeline pass
(events, authoring, validation, duplicate check) and, when the duplicate
check collides, calls itself again — with no retry counter.  A pass is
modelled by its externally determined outcome, and the recursion consumes a
trace of pass outcomes. -/

/-- outcome of one pipeline pass as determined by the external services and
the duplicate guard. -/
inductive PassOutcome
  | failNoEvents
  | failValidation (error : String)
  | duplicate (c : Cipher)
  | fresh (c : Cipher)

/-- `performAIGeneration` over a trace of pass outcomes: failures throw,
fresh ciphers return, and a duplicate re-runs the whole pipeline on the
rest of the trace; `none` means the trace was exhausted with the code still
retrying. -/
def performAIGeneration : List PassOutcome → Option (Except String Cipher)
  | [] => none
  | .failNoEvents :: _ => some (.error "No events found from Perplexity API")
  | .failValidation e :: _ => some (.error e)
  | .duplicate _ :: rest => performAIGeneration rest
  | .fresh c :: _ => some (.ok c)

/-- number of pipeline passes performed on a trace. -/
def aiPasses : List PassOutcome → Nat
  | [] => 0
  | .duplicate _ :: rest => 1 + aiPasses rest
  | _ :: _ => 1

/-- C6: the code retries the pipeline on every collision without bound —
perpetual collisions never surface a failure from the retry loop itself
(only the outer 30s timeout can stop it), and a trace that collides twice
and then succeeds performs a third pass and returns its cipher, where the
claim demands a surfaced generation failure after the second collision. -/
theorem duplicate_retry_unbounded :
    (∀ (c : Cipher) (n : Nat),
      performAIGeneration (List.replicate n (.duplicate c)) = none) ∧
      ∀ c1 c2 c3 : Cipher,
        performAIGeneration [.duplicate c1, .duplicate c2, .fresh c3] = some (.ok c3) ∧
          aiPasses [.duplicate c1, .duplicate c2, .fresh c3] = 3 := by
  constructor
  · intro c n
    induction n with
    | zero => rfl
    | succ k ih =>
      rw [List.replicate_succ]
      exact ih
  · intro c1 c2 c3
    exact ⟨rfl, rfl⟩

/-! ## C10: KV-store cipher serialization round trip

`KVStoreService.saveCipher` writes a cipher as a Redis hash of strings:
numbers via `toString`, the boolean via `toString`, optional strings via
`|| ''`, the nested breadcrumb record via `JSON.stringify`.  `getCipher`
reads it back with `parseInt`, `=== 'true'`, `|| undefined` and
`JSON.parse`.  The JS primitives are modelled below: decimal numerals,
JSON string escaping as `JSON.stringify` performs it (backslash, quote,
the named control escapes `\b\t\n\f\r`, and `\u00xx` for the remaining
control characters), and a parser that inverts exactly the produced
serializations (`JSON.parse` accepts more; the store only ever holds what
`saveCipher` wrote). -/

/-- decimal digit character. -/
def digitChar (d : Nat) : Char :=
  Char.ofNat (48 + d)

def isDigitChar (c : Char) : Bool :=
  decide (48 ≤ c.toNat ∧ c.toNat ≤ 57)

def digitVal (c : Char) : Nat :=
  c.toNat - 48

/-- little-endian base-10 digits with explicit fuel (`fuel = n` always
suffices), keeping the definition kernel-computable. -/
def natDigitsAux : Nat → Nat → List Nat
  | _, 0 => []
  | 0, _ => []
  | Nat.succ f, n => n % 10 :: natDigitsAux f (n / 10)

/-- decimal numeral of a natural number, as `Number.prototype.toString`
renders integers. -/
def encNat (n : Nat) : List Char :=
  if n = 0 then [Char.ofNat 48] else (natDigitsAux n n).reverse.map digitChar

/-- greedy digit-run consumer. -/
def parseNatAux (acc : Nat) : List Char → Nat × List Char
  | [] => (acc, [])
  | c :: rest =>
    if isDigitChar c then parseNatAux (acc * 10 + digitVal c) rest else (acc, c :: rest)

def headIsDigit : List Char → Bool
  | [] => false
  | c :: _ => isDigitChar c

/-- parse a non-empty digit run. -/
def parseNat (l : List Char) : Option (Nat × List Char) :=
  if headIsDigit l then some (parseNatAux 0 l) else none

theorem natDigitsAux_eq_digits (f : Nat) :
    ∀ n : Nat, n ≤ f → natDigitsAux f n = Nat.digits 10 n := by
  induction f with
  | zero =>
    intro n hn
    interval_cases n
    rw [Nat.digits_zero]
    rfl
  | succ f ih =>
    intro n hn
    cases n with
    | zero =>
      rw [Nat.digits_zero]
      rfl
    | succ m =>
      have hstep : natDigitsAux (f + 1) (m + 1) =
          (m + 1) % 10 :: natDigitsAux f ((m + 1) / 10) := rfl
      rw [hstep, ih ((m + 1) / 10) (by omega),
        Nat.digits_def' (by norm_num : (1:ℕ) < 10) (Nat.succ_pos m)]

theorem digitVal_digitChar {d : Nat} (h : d < 10) : digitVal (digitChar d) = d := by
  interval_cases d <;> decide

theorem isDigitChar_digitChar {d : Nat} (h : d < 10) : isDigitChar (digitChar d) = true := by
  interval_cases d <;> decide

theorem parseNatAux_digits (ds : List Nat) (hds : ∀ d ∈ ds, d < 10) (rest : List Char)
    (hrest : headIsDigit rest = false) :
    ∀ acc : Nat, parseNatAux acc (ds.map digitChar ++ rest) =
      (ds.foldl (fun a d => a * 10 + d) acc, rest) := by
  induction ds with
  | nil =>
    intro acc
    cases rest with
    | nil => rfl
    | cons c r =>
      have hc : isDigitChar c = false := by simpa [headIsDigit] using hrest
      simp only [List.map_nil, List.nil_append, List.foldl_nil]
      unfold parseNatAux
      simp [hc]
  | cons d ds' ih =>
    intro acc
    have hd : d < 10 := hds d (List.mem_cons_self d ds')
    have hds' : ∀ d2 ∈ ds', d2 < 10 := fun d2 h2 => hds d2 (List.mem_cons_of_mem d h2)
    simp only [List.map_cons, List.cons_append, List.foldl_cons]
    unfold parseNatAux
    rw [if_pos (isDigitChar_digitChar hd), digitVal_digitChar hd]
    exact ih hds' (acc * 10 + d)

theorem foldl_reverse_digits (ds : List Nat) :
    ∀ acc : Nat, ds.reverse.foldl (fun a d => a * 10 + d) acc =
      acc * 10 ^ ds.length + Nat.ofDigits 10 ds := by
  induction ds with
  | nil =>
    intro acc
    simp [Nat.ofDigits]
  | cons d ds' ih =>
    intro acc
    rw [List.reverse_cons, List.foldl_append, ih acc, List.foldl_cons, List.foldl_nil,
      Nat.ofDigits_cons, List.length_cons]
    ring

theorem parseNat_encNat (n : Nat) (rest : List Char) (hrest : headIsDigit rest = false) :
    parseNat (encNat n ++ rest) = some (n, rest) := by
  by_cases h0 : n = 0
  · subst h0
    have h1 := parseNatAux_digits [0] (by norm_num) rest hrest 0
    simp only [List.map_cons, List.map_nil, List.foldl_cons, List.foldl_nil] at h1
    unfold parseNat
    rw [show encNat 0 = [digitChar 0] from rfl]
    have hd : headIsDigit ([digitChar 0] ++ rest) = true := by
      simp [headIsDigit, isDigitChar_digitChar (show (0:ℕ) < 10 by norm_num)]
    rw [if_pos hd, h1]
  · have hdg : natDigitsAux n n = Nat.digits 10 n := natDigitsAux_eq_digits n n (le_refl n)
    have hlt : ∀ d ∈ (Nat.digits 10 n).reverse, d < 10 := by
      intro d hd
      exact Nat.digits_lt_base (by norm_num) (List.mem_reverse.mp hd)
    have henc : encNat n = (Nat.digits 10 n).reverse.map digitChar := by
      unfold encNat
      rw [if_neg h0, hdg]
    have hne : Nat.digits 10 n ≠ [] := Nat.digits_ne_nil_iff_ne_zero.mpr h0
    have hcons : ∃ d ds, (Nat.digits 10 n).reverse = d :: ds := by
      rcases hrev : (Nat.digits 10 n).reverse with _ | ⟨d, ds⟩
      · exact absurd (by simpa using congrArg List.reverse hrev) hne
      · exact ⟨d, ds, rfl⟩
    obtain ⟨d, ds, hrev⟩ := hcons
    have hparse := parseNatAux_digits (Nat.digits 10 n).reverse hlt rest hrest 0
    rw [foldl_reverse_digits] at hparse
    simp only [Nat.ofDigits_digits, Nat.zero_mul, Nat.zero_add] at hparse
    unfold parseNat
    rw [henc, hrev]
    have hdig : headIsDigit ((d :: ds).map digitChar ++ rest) = true := by
      have hd10 : d < 10 := hlt d (by rw [hrev]; exact List.mem_cons_self d ds)
      simp [headIsDigit, isDigitChar_digitChar hd10]
    rw [if_pos hdig, ← hrev, hparse]

/-- decimal rendering of a JS integer-valued number (`toString`). -/
def intToStr (i : Int) : List Char :=
  if i < 0 then Char.ofNat 45 :: encNat i.natAbs else encNat i.toNat

/-- JS `parseInt` on the canonical payloads this store writes: an optional
minus sign followed by a digit run (trailing characters ignored); anything
else is NaN, modelled as `none`. -/
def parseIntJs (l : List Char) : Option Int :=
  match l with
  | [] => none
  | c :: rest =>
    if c = Char.ofNat 45 then
      match parseNat rest with
      | some (n, _) => some (-(n : Int))
      | none => none
    else
      match parseNat l with
      | some (n, _) => some ((n : Int))
      | none => none

theorem headIsDigit_encNat (n : Nat) (rest : List Char) :
    headIsDigit (encNat n ++ rest) = true := by
  by_cases h0 : n = 0
  · subst h0
    rfl
  · have hdg : natDigitsAux n n = Nat.digits 10 n := natDigitsAux_eq_digits n n (le_refl n)
    have hne : Nat.digits 10 n ≠ [] := Nat.digits_ne_nil_iff_ne_zero.mpr h0
    rcases hrev : (Nat.digits 10 n).reverse with _ | ⟨d, ds⟩
    · exact absurd (by simpa using congrArg List.reverse hrev) hne
    · have hd10 : d < 10 :=
        Nat.digits_lt_base (by norm_num)
          (List.mem_reverse.mp (by rw [hrev]; exact List.mem_cons_self d ds))
      unfold encNat
      rw [if_neg h0, hdg, hrev]
      simp [headIsDigit, isDigitChar_digitChar hd10]

theorem parseIntJs_intToStr (i : Int) (rest : List Char) (hrest : headIsDigit rest = false) :
    parseIntJs (intToStr i ++ rest) = some i := by
  by_cases hneg : i < 0
  · unfold intToStr
    rw [if_pos hneg]
    unfold parseIntJs
    simp only [List.cons_append, if_pos rfl]
    rw [parseNat_encNat i.natAbs rest hrest]
    show some (-(i.natAbs : Int)) = some i
    simp only [Option.some.injEq]
    rw [Int.ofNat_natAbs_of_nonpos (by omega)]
    rw [neg_neg]
  · unfold intToStr
    rw [if_neg hneg]
    have hhd := headIsDigit_encNat i.toNat rest
    rcases hE : encNat i.toNat ++ rest with _ | ⟨c, l⟩
    · rw [hE] at hhd
      simp [headIsDigit] at hhd
    · rw [hE] at hhd
      have hcd : isDigitChar c = true := by simpa [headIsDigit] using hhd
      have hcne : ¬ c = Char.ofNat 45 := by
        intro he
        subst he
        simp [isDigitChar] at hcd
      simp only [parseIntJs]
      rw [if_neg hcne, ← hE, parseNat_encNat i.toNat rest hrest]
      show some ((i.toNat : Int)) = some i
      simp only [Option.some.injEq]
      omega

/-- shortest decimal rendering of a tenths-valued JS number, exactly as JS
prints it: `8 ↦ "0.8"`, `10 ↦ "1"`, `25 ↦ "2.5"`. -/
def encTenths (w : Nat) : List Char :=
  if w % 10 = 0 then encNat (w / 10)
  else encNat (w / 10) ++ Char.ofNat 46 :: [digitChar (w % 10)]

/-- the character following a JSON number inside our objects is a comma or
closing brace — never a digit or a decimal point. -/
def numBoundary : List Char → Bool
  | [] => true
  | c :: _ => !isDigitChar c && !(decide (c = Char.ofNat 46))

/-- parse a tenths-valued number: integer part, optionally a point and one
decimal digit. -/
def parseTenths (l : List Char) : Option (Nat × List Char) :=
  match parseNat l with
  | none => none
  | some (n, rest) =>
    match rest with
    | c :: d :: rest2 =>
      if c = Char.ofNat 46 ∧ isDigitChar d = true then some (n * 10 + digitVal d, rest2)
      else some (n * 10, rest)
    | _ => some (n * 10, rest)

theorem parseTenths_encTenths (w : Nat) (rest : List Char)
    (hb : numBoundary rest = true) :
    parseTenths (encTenths w ++ rest) = some (w, rest) := by
  have hrest : headIsDigit rest = false := by
    cases rest with
    | nil => rfl
    | cons c r =>
      simp only [numBoundary, Bool.and_eq_true, Bool.not_eq_true'] at hb
      simpa [headIsDigit] using hb.1
  by_cases hw : w % 10 = 0
  · have he : encTenths w = encNat (w / 10) := by
      unfold encTenths
      rw [if_pos hw]
    rw [he]
    have hww : w / 10 * 10 = w := by omega
    unfold parseTenths
    rw [parseNat_encNat (w / 10) rest hrest]
    rcases rest with _ | ⟨c, _ | ⟨d, rest2⟩⟩
    · show some (w / 10 * 10, ([] : List Char)) = some (w, [])
      rw [hww]
    · show some (w / 10 * 10, [c]) = some (w, [c])
      rw [hww]
    · show (if c = Char.ofNat 46 ∧ isDigitChar d = true then
          some (w / 10 * 10 + digitVal d, rest2)
        else some (w / 10 * 10, c :: d :: rest2)) = some (w, c :: d :: rest2)
      have hcne : ¬ c = Char.ofNat 46 := by
        simp only [numBoundary, Bool.and_eq_true, Bool.not_eq_true',
          decide_eq_false_iff_not] at hb
        exact hb.2
      rw [if_neg (fun hand => hcne hand.1), hww]
  · have hd10 : w % 10 < 10 := Nat.mod_lt w (by norm_num)
    have he : encTenths w = encNat (w / 10) ++ Char.ofNat 46 :: [digitChar (w % 10)] := by
      unfold encTenths
      rw [if_neg hw]
    rw [he, List.append_assoc]
    have hshape : (Char.ofNat 46 :: [digitChar (w % 10)]) ++ rest =
        Char.ofNat 46 :: digitChar (w % 10) :: rest := rfl
    rw [hshape]
    have hmid : headIsDigit (Char.ofNat 46 :: digitChar (w % 10) :: rest) = false := by
      show isDigitChar (Char.ofNat 46) = false
      decide
    unfold parseTenths
    rw [parseNat_encNat (w / 10) _ hmid]
    show (if Char.ofNat 46 = Char.ofNat 46 ∧ isDigitChar (digitChar (w % 10)) = true then
        some (w / 10 * 10 + digitVal (digitChar (w % 10)), rest)
      else some (w / 10 * 10, Char.ofNat 46 :: digitChar (w % 10) :: rest)) = some (w, rest)
    rw [if_pos ⟨rfl, isDigitChar_digitChar hd10⟩, digitVal_digitChar hd10]
    have hww : w / 10 * 10 + w % 10 = w := by omega
    rw [hww]

/-- lowercase hexadecimal digit. -/
def toHexDigitChar (n : Nat) : Char :=
  if n < 10 then Char.ofNat (48 + n) else Char.ofNat (87 + n)

/-- hexadecimal digit value (either case). -/
def hexVal (c : Char) : Option Nat :=
  if 48 ≤ c.toNat ∧ c.toNat ≤ 57 then some (c.toNat - 48)
  else if 97 ≤ c.toNat ∧ c.toNat ≤ 102 then some (c.toNat - 87)
  else if 65 ≤ c.toNat ∧ c.toNat ≤ 70 then some (c.toNat - 55)
  else none

/-- escape of one character, as `JSON.stringify` emits it: quote and
backslash escaped, the five named control escapes, `\u00xx` for the
remaining control characters, and everything else literal. -/
def escapeChar (c : Char) : List Char :=
  if c = Char.ofNat 34 then [Char.ofNat 92, Char.ofNat 34]
  else if c = Char.ofNat 92 then [Char.ofNat 92, Char.ofNat 92]
  else if c = Char.ofNat 8 then [Char.ofNat 92, Char.ofNat 98]
  else if c = Char.ofNat 9 then [Char.ofNat 92, Char.ofNat 116]
  else if c = Char.ofNat 10 then [Char.ofNat 92, Char.ofNat 110]
  else if c = Char.ofNat 12 then [Char.ofNat 92, Char.ofNat 102]
  else if c = Char.ofNat 13 then [Char.ofNat 92, Char.ofNat 114]
  else if c.toNat < 32 then
    [Char.ofNat 92, Char.ofNat 117, Char.ofNat 48, Char.ofNat 48,
      toHexDigitChar (c.toNat / 16), toHexDigitChar (c.toNat % 16)]
  else [c]

/-- a JSON string literal: quote, escaped characters, quote. -/
def encodeJsonString (s : List Char) : List Char :=
  Char.ofNat 34 :: (s.map escapeChar).flatten ++ [Char.ofNat 34]

/-- parse the body of a JSON string literal (after the opening quote) up to
its closing quote, decoding the standard escapes. -/
def parseStringBody : List Char → Option (List Char × List Char)
  | [] => none
  | c :: rest =>
    if c = Char.ofNat 34 then some ([], rest)
    else if c = Char.ofNat 92 then
      match rest with
      | [] => none
      | e :: rest2 =>
        if e = Char.ofNat 34 then
          (parseStringBody rest2).map fun p => (Char.ofNat 34 :: p.1, p.2)
        else if e = Char.ofNat 92 then
          (parseStringBody rest2).map fun p => (Char.ofNat 92 :: p.1, p.2)
        else if e = Char.ofNat 47 then
          (parseStringBody rest2).map fun p => (Char.ofNat 47 :: p.1, p.2)
        else if e = Char.ofNat 98 then
          (parseStringBody rest2).map fun p => (Char.ofNat 8 :: p.1, p.2)
        else if e = Char.ofNat 116 then
          (parseStringBody rest2).map fun p => (Char.ofNat 9 :: p.1, p.2)
        else if e = Char.ofNat 110 then
          (parseStringBody rest2).map fun p => (Char.ofNat 10 :: p.1, p.2)
        else if e = Char.ofNat 102 then
          (parseStringBody rest2).map fun p => (Char.ofNat 12 :: p.1, p.2)
        else if e = Char.ofNat 114 then
          (parseStringBody rest2).map fun p => (Char.ofNat 13 :: p.1, p.2)
        else if e = Char.ofNat 117 then
          match rest2 with
          | h1 :: h2 :: h3 :: h4 :: rest3 =>
            match hexVal h1, hexVal h2, hexVal h3, hexVal h4 with
            | some v1, some v2, some v3, some v4 =>
              (parseStringBody rest3).map fun p =>
                (Char.ofNat (((v1 * 16 + v2) * 16 + v3) * 16 + v4) :: p.1, p.2)
            | _, _, _, _ => none
          | _ => none
        else none
    else (parseStringBody rest).map fun p => (c :: p.1, p.2)

theorem toNat_ofNat_small {t : Nat} (h : t < 55296) : (Char.ofNat t).toNat = t := by
  have hv : Nat.isValidChar t := Or.inl h
  simp only [Char.ofNat, hv, dite_true, dif_pos]
  rfl

theorem hexVal_toHexDigitChar (v : Nat) (h : v < 16) :
    hexVal (toHexDigitChar v) = some v := by
  interval_cases v <;> decide

theorem psb_quote (L : List Char) :
    parseStringBody (Char.ofNat 34 :: L) = some ([], L) := by
  unfold parseStringBody
  rw [if_pos rfl]

theorem psb_lit (c : Char) (h34 : ¬ c = Char.ofNat 34) (h92 : ¬ c = Char.ofNat 92)
    (L : List Char) :
    parseStringBody (c :: L) = (parseStringBody L).map fun p => (c :: p.1, p.2) := by
  conv_lhs => unfold parseStringBody
  rw [if_neg h34, if_neg h92]

theorem psb_esc34 (L : List Char) :
    parseStringBody (Char.ofNat 92 :: Char.ofNat 34 :: L) =
      (parseStringBody L).map fun p => (Char.ofNat 34 :: p.1, p.2) := by
  conv_lhs => unfold parseStringBody
  rw [if_neg (by decide), if_pos rfl]
  rfl

theorem psb_esc92 (L : List Char) :
    parseStringBody (Char.ofNat 92 :: Char.ofNat 92 :: L) =
      (parseStringBody L).map fun p => (Char.ofNat 92 :: p.1, p.2) := by
  conv_lhs => unfold parseStringBody
  rw [if_neg (by decide), if_pos rfl]
  rfl

theorem psb_esc98 (L : List Char) :
    parseStringBody (Char.ofNat 92 :: Char.ofNat 98 :: L) =
      (parseStringBody L).map fun p => (Char.ofNat 8 :: p.1, p.2) := by
  conv_lhs => unfold parseStringBody
  rw [if_neg (by decide), if_pos rfl]
  rfl

theorem psb_esc116 (L : List Char) :
    parseStringBody (Char.ofNat 92 :: Char.ofNat 116 :: L) =
      (parseStringBody L).map fun p => (Char.ofNat 9 :: p.1, p.2) := by
  conv_lhs => unfold parseStringBody
  rw [if_neg (by decide), if_pos rfl]
  rfl

theorem psb_esc110 (L : List Char) :
    parseStringBody (Char.ofNat 92 :: Char.ofNat 110 :: L) =
      (parseStringBody L).map fun p => (Char.ofNat 10 :: p.1, p.2) := by
  conv_lhs => unfold parseStringBody
  rw [if_neg (by decide), if_pos rfl]
  rfl

theorem psb_esc102 (L : List Char) :
    parseStringBody (Char.ofNat 92 :: Char.ofNat 102 :: L) =
      (parseStringBody L).map fun p => (Char.ofNat 12 :: p.1, p.2) := by
  conv_lhs => unfold parseStringBody
  rw [if_neg (by decide), if_pos rfl]
  rfl

theorem psb_esc114 (L : List Char) :
    parseStringBody (Char.ofNat 92 :: Char.ofNat 114 :: L) =
      (parseStringBody L).map fun p => (Char.ofNat 13 :: p.1, p.2) := by
  conv_lhs => unfold parseStringBody
  rw [if_neg (by decide), if_pos rfl]
  rfl

theorem psb_hex (x1 x2 x3 x4 : Char) (v1 v2 v3 v4 : Nat) (L : List Char)
    (e1 : hexVal x1 = some v1) (e2 : hexVal x2 = some v2)
    (e3 : hexVal x3 = some v3) (e4 : hexVal x4 = some v4) :
    parseStringBody (Char.ofNat 92 :: Char.ofNat 117 :: x1 :: x2 :: x3 :: x4 :: L) =
      (parseStringBody L).map fun p =>
        (Char.ofNat (((v1 * 16 + v2) * 16 + v3) * 16 + v4) :: p.1, p.2) := by
  conv_lhs => unfold parseStringBody
  rw [if_neg (by decide), if_pos rfl]
  simp only [e1, e2, e3, e4]
  rw [if_neg (by decide), if_neg (by decide), if_neg (by decide), if_neg (by decide),
    if_neg (by decide), if_neg (by decide), if_neg (by decide), if_neg (by decide),
    if_pos trivial]

theorem parseStringBody_escaped (s : List Char) (rest : List Char) :
    parseStringBody ((s.map escapeChar).flatten ++ Char.ofNat 34 :: rest) = some (s, rest) := by
  induction s with
  | nil =>
    simp only [List.map_nil, List.flatten_nil, List.nil_append]
    exact psb_quote rest
  | cons c s' ih =>
    simp only [List.map_cons, List.flatten_cons, List.append_assoc]
    by_cases h34 : c = Char.ofNat 34
    · have he : escapeChar c = [Char.ofNat 92, Char.ofNat 34] := by
        unfold escapeChar
        rw [if_pos h34]
      rw [he, h34]
      simp only [List.cons_append, List.nil_append]
      rw [psb_esc34, ih]
      rfl
    · by_cases h92 : c = Char.ofNat 92
      · have he : escapeChar c = [Char.ofNat 92, Char.ofNat 92] := by
          unfold escapeChar
          rw [if_neg h34, if_pos h92]
        rw [he, h92]
        simp only [List.cons_append, List.nil_append]
        rw [psb_esc92, ih]
        rfl
      · by_cases h8 : c = Char.ofNat 8
        · have he : escapeChar c = [Char.ofNat 92, Char.ofNat 98] := by
            unfold escapeChar
            rw [if_neg h34, if_neg h92, if_pos h8]
          rw [he, h8]
          simp only [List.cons_append, List.nil_append]
          rw [psb_esc98, ih]
          rfl
        · by_cases h9 : c = Char.ofNat 9
          · have he : escapeChar c = [Char.ofNat 92, Char.ofNat 116] := by
              unfold escapeChar
              rw [if_neg h34, if_neg h92, if_neg h8, if_pos h9]
            rw [he, h9]
            simp only [List.cons_append, List.nil_append]
            rw [psb_esc116, ih]
            rfl
          · by_cases h10 : c = Char.ofNat 10
            · have he : escapeChar c = [Char.ofNat 92, Char.ofNat 110] := by
                unfold escapeChar
                rw [if_neg h34, if_neg h92, if_neg h8, if_neg h9, if_pos h10]
              rw [he, h10]
              simp only [List.cons_append, List.nil_append]
              rw [psb_esc110, ih]
              rfl
            · by_cases h12 : c = Char.ofNat 12
              · have he : escapeChar c = [Char.ofNat 92, Char.ofNat 102] := by
                  unfold escapeChar
                  rw [if_neg h34, if_neg h92, if_neg h8, if_neg h9, if_neg h10, if_pos h12]
                rw [he, h12]
                simp only [List.cons_append, List.nil_append]
                rw [psb_esc102, ih]
                rfl
              · by_cases h13 : c = Char.ofNat 13
                · have he : escapeChar c = [Char.ofNat 92, Char.ofNat 114] := by
                    unfold escapeChar
                    rw [if_neg h34, if_neg h92, if_neg h8, if_neg h9, if_neg h10, if_neg h12,
                      if_pos h13]
                  rw [he, h13]
                  simp only [List.cons_append, List.nil_append]
                  rw [psb_esc114, ih]
                  rfl
                · by_cases hctl : c.toNat < 32
                  · have he : escapeChar c = [Char.ofNat 92, Char.ofNat 117, Char.ofNat 48,
                        Char.ofNat 48, toHexDigitChar (c.toNat / 16),
                        toHexDigitChar (c.toNat % 16)] := by
                      unfold escapeChar
                      rw [if_neg h34, if_neg h92, if_neg h8, if_neg h9, if_neg h10, if_neg h12,
                        if_neg h13, if_pos hctl]
                    rw [he]
                    simp only [List.cons_append, List.nil_append]
                    rw [psb_hex (Char.ofNat 48) (Char.ofNat 48) (toHexDigitChar (c.toNat / 16))
                      (toHexDigitChar (c.toNat % 16)) 0 0 (c.toNat / 16) (c.toNat % 16) _
                      (by decide) (by decide)
                      (hexVal_toHexDigitChar (c.toNat / 16) (by omega))
                      (hexVal_toHexDigitChar (c.toNat % 16) (by omega)), ih]
                    have hvv : ((0 * 16 + 0) * 16 + c.toNat / 16) * 16 + c.toNat % 16 =
                        c.toNat := by omega
                    rw [hvv, Char.ofNat_toNat]
                    rfl
                  · have he : escapeChar c = [c] := by
                      unfold escapeChar
                      rw [if_neg h34, if_neg h92, if_neg h8, if_neg h9, if_neg h10, if_neg h12,
                        if_neg h13, if_neg hctl]
                    rw [he]
                    simp only [List.cons_append, List.nil_append]
                    rw [psb_lit c h34 h92, ih]
                    rfl

/-- a JSON string literal with its opening quote. -/
def parseJsonString (l : List Char) : Option (List Char × List Char) :=
  match l with
  | [] => none
  | c :: rest => if c = Char.ofNat 34 then parseStringBody rest else none

theorem parseJsonString_encode (s : List Char) (rest : List Char) :
    parseJsonString (encodeJsonString s ++ rest) = some (s, rest) := by
  have hshape : encodeJsonString s ++ rest =
      Char.ofNat 34 :: ((s.map escapeChar).flatten ++ Char.ofNat 34 :: rest) := by
    unfold encodeJsonString
    simp only [List.cons_append, List.nil_append, List.append_assoc]
  rw [hshape]
  show (if Char.ofNat 34 = Char.ofNat 34 then
      parseStringBody ((s.map escapeChar).flatten ++ Char.ofNat 34 :: rest) else none) =
    some (s, rest)
  rw [if_pos rfl]
  exact parseStringBody_escaped s rest


/-! ### Breadcrumb JSON object

`saveCipher` stores `breadcrumbData` as `JSON.stringify(cipher.breadcrumbData)`
and `getCipher` recovers it with `JSON.parse`.  `JSON.stringify` emits the
object keys in insertion order — `narrative_thread_id`, `connection_weight`,
`thematic_category`, `cipher_source_event`, `unlock_threshold`, exactly as
every construction site in the repository writes them — with no whitespace.
`decodeBreadcrumbJson` is `JSON.parse` specialised to that concrete shape
(the only shape this store ever reads); a malformed payload, on which
`JSON.parse` would throw, yields `none`.  The `as`-cast on the parsed value
restricts `thematic_category` to the three-literal union type. -/

/-- a JSON object key with its quotes and the following colon. -/
def keyLit (k : String) : List Char :=
  encodeJsonString k.toList ++ [Char.ofNat 58]

/-- render `Category` to its string literal. -/
def categoryStr : Category → String
  | Category.privacy => "privacy"
  | Category.auditing => "auditing"
  | Category.patents => "patents"

/-- read a `Category` string literal back. -/
def parseCategory (s : String) : Option Category :=
  if s = "privacy" then some Category.privacy
  else if s = "auditing" then some Category.auditing
  else if s = "patents" then some Category.patents
  else none

/-- `JSON.stringify` of a `BreadcrumbMetadata` object (`\x7b` and `\x7d` are
the braces). -/
def encodeBreadcrumbJson (b : BreadcrumbMetadata) : List Char :=
  (Char.ofNat 123 :: keyLit "narrative_thread_id") ++
    (encodeJsonString b.narrative_thread_id.toList ++
    ((Char.ofNat 44 :: keyLit "connection_weight") ++
    (encTenths b.connection_weight_tenths ++
    ((Char.ofNat 44 :: keyLit "thematic_category") ++
    (encodeJsonString (categoryStr b.thematic_category).toList ++
    ((Char.ofNat 44 :: keyLit "cipher_source_event") ++
    (encodeJsonString b.cipher_source_event.toList ++
    ((Char.ofNat 44 :: keyLit "unlock_threshold") ++
    (encNat b.unlock_threshold ++ [Char.ofNat 125])))))))))

/-- expect a literal prefix, returning the remainder. -/
def dropLit : List Char → List Char → Option (List Char)
  | [], l => some l
  | _ :: _, [] => none
  | c :: cs, x :: xs => if x = c then dropLit cs xs else none

/-- `JSON.parse` on the breadcrumb payloads this store writes. -/
def decodeBreadcrumbJson (l : List Char) : Option BreadcrumbMetadata :=
  match dropLit (Char.ofNat 123 :: keyLit "narrative_thread_id") l with
  | none => none
  | some l1 =>
    match parseJsonString l1 with
    | none => none
    | some (nid, l2) =>
      match dropLit (Char.ofNat 44 :: keyLit "connection_weight") l2 with
      | none => none
      | some l3 =>
        match parseTenths l3 with
        | none => none
        | some (w, l4) =>
          match dropLit (Char.ofNat 44 :: keyLit "thematic_category") l4 with
          | none => none
          | some l5 =>
            match parseJsonString l5 with
            | none => none
            | some (cat, l6) =>
              match parseCategory (String.mk cat) with
              | none => none
              | some catv =>
                match dropLit (Char.ofNat 44 :: keyLit "cipher_source_event") l6 with
                | none => none
                | some l7 =>
                  match parseJsonString l7 with
                  | none => none
                  | some (src, l8) =>
                    match dropLit (Char.ofNat 44 :: keyLit "unlock_threshold") l8 with
                    | none => none
                    | some l9 =>
                      match parseNat l9 with
                      | none => none
                      | some (thr, l10) =>
                        if l10 = [Char.ofNat 125] then
                          some ⟨String.mk nid, w, catv, String.mk src, thr⟩
                        else none

theorem dropLit_append (pre rest : List Char) : dropLit pre (pre ++ rest) = some rest := by
  induction pre with
  | nil => rfl
  | cons c cs ih =>
    show dropLit (c :: cs) (c :: (cs ++ rest)) = some rest
    unfold dropLit
    rw [if_pos rfl]
    exact ih

theorem parseTenths_enc44 (w : Nat) (k : String) (X : List Char) :
    parseTenths (encTenths w ++ ((Char.ofNat 44 :: keyLit k) ++ X)) =
      some (w, (Char.ofNat 44 :: keyLit k) ++ X) := by
  apply parseTenths_encTenths
  rw [List.cons_append]
  show (!isDigitChar (Char.ofNat 44) && !(decide (Char.ofNat 44 = Char.ofNat 46))) = true
  decide

theorem parseNat_enc125 (n : Nat) :
    parseNat (encNat n ++ [Char.ofNat 125]) = some (n, [Char.ofNat 125]) :=
  parseNat_encNat n _ (by decide)

theorem parseCategory_categoryStr (c : Category) :
    parseCategory (String.mk (categoryStr c).toList) = some c := by
  cases c <;> decide

theorem decodeBreadcrumb_encode (b : BreadcrumbMetadata) :
    decodeBreadcrumbJson (encodeBreadcrumbJson b) = some b := by
  unfold decodeBreadcrumbJson encodeBreadcrumbJson
  simp only [dropLit_append, parseJsonString_encode, parseTenths_enc44,
    parseCategory_categoryStr, parseNat_enc125]
  rfl

/-! ### The cipher hash (KVStoreService.saveCipher / getCipher)

`saveCipher` writes the record into the Redis hash `cipher:\x7bid\x7d` as
fourteen string fields; `getCipher` reads them back.  `CipherHash` is that
hash.  `getCipher` bails out with `null` when `data.id` is falsy (the empty
string); numeric fields go through `parseInt(... || default)`, `isActive`
through `=== 'true'`, and the optional fields through `|| ''` on write and
truthiness checks on read. -/

/-- the fourteen string fields `saveCipher` writes under `cipher:\x7bid\x7d`. -/
structure CipherHash where
  id : String
  title : String
  hint : String
  solution : String
  difficulty : String
  format : String
  content : String
  contentUrl : String
  timeLimit : String
  createdAt : String
  expiresAt : String
  isActive : String
  sourceEvent : String
  breadcrumbData : String
deriving DecidableEq, Repr

/-- render `Difficulty` to its string literal. -/
def difficultyStr : Difficulty → String
  | Difficulty.Easy => "Easy"
  | Difficulty.Medium => "Medium"
  | Difficulty.Hard => "Hard"

/-- `(data.difficulty as 'Easy' | 'Medium' | 'Hard') || 'Easy'`: the stored
field is always one of the three literals, and the empty string defaults to
`Easy`. -/
def parseDifficulty (s : String) : Difficulty :=
  if s = "Medium" then Difficulty.Medium
  else if s = "Hard" then Difficulty.Hard
  else Difficulty.Easy

/-- render `CipherFormat` to its string literal. -/
def formatStr : CipherFormat → String
  | CipherFormat.text => "text"
  | CipherFormat.image => "image"
  | CipherFormat.audio => "audio"

/-- `(data.format as 'text' | 'image' | 'audio') || 'text'`. -/
def parseFormat (s : String) : CipherFormat :=
  if s = "image" then CipherFormat.image
  else if s = "audio" then CipherFormat.audio
  else CipherFormat.text

/-- `parseInt` of a stored numeric field.  Every payload `saveCipher` writes
is `Number.prototype.toString` of an integer, on which `parseInt` always
succeeds; `getD 0` stands in for the `NaN` that no stored payload produces. -/
def parseIntDefault (s : String) : Int :=
  (parseIntJs s.toList).getD 0

/-- `saveCipher` (src/unnamed/part_001, lines 12-28): the hash written for a
cipher record. -/
def saveCipherHash (c : Cipher) : CipherHash where
  id := c.id
  title := c.title
  hint := c.hint
  solution := c.solution
  difficulty := difficultyStr c.difficulty
  format := formatStr c.format
  content := c.content
  contentUrl := c.contentUrl.getD ""
  timeLimit := String.mk (intToStr c.timeLimit)
  createdAt := String.mk (intToStr c.createdAt)
  expiresAt := String.mk (intToStr c.expiresAt)
  isActive := if c.isActive then "true" else "false"
  sourceEvent := c.sourceEvent.getD ""
  breadcrumbData :=
    match c.breadcrumbData with
    | some b => String.mk (encodeBreadcrumbJson b)
    | none => ""

/-- `getCipher` (src/unnamed/part_001, lines 37-57) reading the hash written
for the same id: `null` when `data.id` is falsy, otherwise the record rebuilt
field by field (`none` from the breadcrumb decoder models the exception a
malformed `JSON.parse` payload would raise). -/
def getCipherHash (h : CipherHash) : Option Cipher :=
  if h.id = "" then none
  else
    match (if h.breadcrumbData = "" then some Option.none
           else (decodeBreadcrumbJson h.breadcrumbData.toList).map some) with
    | none => none
    | some bd =>
      some
        { id := h.id
          title := h.title
          hint := h.hint
          solution := h.solution
          difficulty := parseDifficulty h.difficulty
          format := parseFormat h.format
          content := h.content
          contentUrl := if h.contentUrl = "" then none else some h.contentUrl
          timeLimit := parseIntDefault (if h.timeLimit = "" then "3" else h.timeLimit)
          createdAt := parseIntDefault (if h.createdAt = "" then "0" else h.createdAt)
          expiresAt := parseIntDefault (if h.expiresAt = "" then "0" else h.expiresAt)
          isActive := h.isActive = "true"
          sourceEvent := if h.sourceEvent = "" then none else some h.sourceEvent
          breadcrumbData := bd }

theorem encNat_ne_nil (n : Nat) : encNat n ≠ [] := by
  intro hnil
  have h := headIsDigit_encNat n []
  rw [List.append_nil, hnil] at h
  exact absurd h (by decide)

theorem intToStr_ne_nil (i : Int) : intToStr i ≠ [] := by
  unfold intToStr
  by_cases h : i < 0
  · rw [if_pos h]
    exact List.cons_ne_nil _ _
  · rw [if_neg h]
    exact encNat_ne_nil _

theorem mk_intToStr_ne_empty (i : Int) : String.mk (intToStr i) ≠ "" := by
  intro h
  exact intToStr_ne_nil i (congrArg String.data h)

theorem parseIntDefault_intToStr (i : Int) :
    parseIntDefault (String.mk (intToStr i)) = i := by
  show (parseIntJs (intToStr i)).getD 0 = i
  rw [← List.append_nil (intToStr i), parseIntJs_intToStr i [] rfl]
  rfl

theorem parseDifficulty_difficultyStr (d : Difficulty) :
    parseDifficulty (difficultyStr d) = d := by
  cases d <;> decide

theorem parseFormat_formatStr (f : CipherFormat) :
    parseFormat (formatStr f) = f := by
  cases f <;> decide

theorem encodeBreadcrumbJson_ne_nil (b : BreadcrumbMetadata) :
    encodeBreadcrumbJson b ≠ [] := by
  unfold encodeBreadcrumbJson
  intro h
  have hl := congrArg List.length h
  simp [List.length_append] at hl

theorem mk_encodeBreadcrumbJson_ne_empty (b : BreadcrumbMetadata) :
    String.mk (encodeBreadcrumbJson b) ≠ "" := by
  intro h
  exact encodeBreadcrumbJson_ne_nil b (congrArg String.data h)

theorem decide_toString_isActive (act : Bool) :
    decide ((if act then "true" else "false") = "true") = act := by
  cases act <;> decide

/-- a record with the empty id and all optional fields absent. -/
def cipherEmptyId : Cipher where
  id := ""
  title := "t"
  hint := "h"
  solution := "SOL"
  difficulty := Difficulty.Easy
  format := CipherFormat.text
  content := "X"
  contentUrl := none
  timeLimit := 3
  createdAt := 0
  expiresAt := 10
  isActive := true
  sourceEvent := none
  breadcrumbData := none

/-- C10 (counterexample): the claimed round-trip admits records whose `id` is
the empty string (its only restriction is on the three optional fields), but
`getCipher` treats a falsy `data.id` as a missing record and returns `null`,
so saving such a record and reading it back yields `null`, not the record. -/
theorem cipher_roundtrip_counterexample :
    cipherEmptyId.contentUrl = none ∧ cipherEmptyId.sourceEvent = none ∧
    cipherEmptyId.breadcrumbData = none ∧
    getCipherHash (saveCipherHash cipherEmptyId) ≠ some cipherEmptyId := by
  decide

/-- C10 (amended): for every cipher record with a non-empty `id` whose
optional `contentUrl` and `sourceEvent` are absent or non-empty,
`getCipher` right after `saveCipher` returns exactly the record saved:
every string, numeric, boolean and nested breadcrumb field round-trips
through the string-typed hash. -/
theorem cipher_save_get_roundtrip (c : Cipher) (hid : c.id ≠ "")
    (hurl : c.contentUrl ≠ some "") (hsrc : c.sourceEvent ≠ some "") :
    getCipherHash (saveCipherHash c) = some c := by
  obtain ⟨cid, title, hint, sol, diff, fmt, content, curl, tl, ca, ea, act, se, bd⟩ := c
  have hu : (if curl.getD "" = "" then (none : Option String) else some (curl.getD "")) =
      curl := by
    rcases curl with _ | u
    · rfl
    · have hne : u ≠ "" := fun h => hurl (by rw [h])
      simp only [Option.getD_some]
      rw [if_neg hne]
  have hs : (if se.getD "" = "" then (none : Option String) else some (se.getD "")) = se := by
    rcases se with _ | v
    · rfl
    · have hne : v ≠ "" := fun h => hsrc (by rw [h])
      simp only [Option.getD_some]
      rw [if_neg hne]
  rcases bd with _ | b
  · simp only [saveCipherHash, getCipherHash, hu, hs, decide_toString_isActive,
      mk_intToStr_ne_empty, parseIntDefault_intToStr, parseDifficulty_difficultyStr,
      parseFormat_formatStr, if_neg hid, ite_false, ite_true]
  · have hdec : decodeBreadcrumbJson (String.mk (encodeBreadcrumbJson b)).toList = some b :=
      decodeBreadcrumb_encode b
    simp only [saveCipherHash, getCipherHash, hu, hs, decide_toString_isActive,
      mk_intToStr_ne_empty, mk_encodeBreadcrumbJson_ne_empty, hdec,
      parseIntDefault_intToStr, parseDifficulty_difficultyStr,
      parseFormat_formatStr, if_neg hid, ite_false, ite_true]
    rfl

/-- a concrete record exercising every field, including a nested breadcrumb. -/
def cipherRt : Cipher where
  id := "c1"
  title := "Digital Privacy Cipher"
  hint := "The medium is the message"
  solution := "BE WATER"
  difficulty := Difficulty.Medium
  format := CipherFormat.text
  content := "OROL"
  contentUrl := some "https://example.com/a.png"
  timeLimit := 4
  createdAt := 100
  expiresAt := 14500
  isActive := true
  sourceEvent := some "ECPA discussion"
  breadcrumbData := some ⟨"thread-1", 8, Category.privacy, "ECPA", 50⟩

theorem cipher_save_get_roundtrip_witness :
    cipherRt.id ≠ "" ∧ cipherRt.contentUrl ≠ some "" ∧ cipherRt.sourceEvent ≠ some "" ∧
    getCipherHash (saveCipherHash cipherRt) = some cipherRt :=
  ⟨by decide, by decide, by decide,
    cipher_save_get_roundtrip cipherRt (by decide) (by decide) (by decide)⟩
